import Mathlib

/-!
# Verification of the HDX stepped-execution engine (hdxjsfuncs.js)

A shallow embedding of the core of `src/HighwayDataExaminer/hdxjsfuncs.js`:

* the generic ordered container `HDXLinear` (stack / queue / random / priority
  disciplines) with its `add` / `remove` / `isEmpty` operations,
* the traversal / spanning-tree algorithm state machine
  (`hdxTraversalsSpanningAVCommon.avActions`), shared by BFS/DFS/RFS,
  Dijkstra's algorithm and Prim's algorithm,
* the step scheduler (`hdxAV.nextStep`, `hdxAV.oneIteration`,
  `hdxAV.oneAction`).

Entry values are JS numbers; the engine itself never computes with them (it
only stores them and passes them to the plugged-in comparator and
`valForLDVEntry`), so the embedding is parametric in the value type `V`;
instantiations use `Int`, exact in IEEE doubles for every scenario verified
here.  Nullable values (`null`, the `-1` edge sentinel,
`undefined` results) as `Option`, and a thrown exception as the `.error`
branch of `Except`.  Display-only calls (`updateMarkerAndTable`,
`updatePolylineAndTable`, `highlightPseudocode`, innerHTML updates, …) are
fire-and-forget visualization-sink calls with no value read back by the
engine and are omitted from the state.
-/

/-! ## The HDXLinear container (hdxjsfuncs.js lines 4371-4510) -/

/-- `var hdxLinearTypes = { STACK: 1, QUEUE: 2, RANDOM: 3, PRIORITY_QUEUE: 4,
UNKNOWN: 5 }` -/
inductive HDXLinearType where
  | STACK
  | QUEUE
  | RANDOM
  | PRIORITY_QUEUE
  | UNKNOWN
deriving DecidableEq, Repr

open HDXLinearType

/-- The state of a `HDXLinear(type, displayName)` object: the discipline tag,
the comparator (`comesBefore`, settable via `setComparator`), the backing
array `items`, and the diagnostic counters.  Display fields (`displayName`,
`docElement`, `elementHTMLCallback`, …) are visualization-only and omitted. -/
structure HDXLinear (α : Type) where
  type : HDXLinearType
  comesBefore : α → α → Bool
  items : List α
  addCount : Nat
  removeCount : Nat

/-- A freshly constructed `HDXLinear`: empty items, zero counters.  The JS
default comparator is `a < b`, which on arbitrary objects is a meaningless
comparison evaluating to `false`; it is only ever replaced (via
`setComparator`) before use on priority queues. -/
def HDXLinear.new (ty : HDXLinearType) (cmp : α → α → Bool) : HDXLinear α :=
  { type := ty, comesBefore := cmp, items := [], addCount := 0,
    removeCount := 0 }

/-- The priority-queue insertion loop of `HDXLinear.add`:

```js
let i = 0;
while ((i < this.items.length) && this.comesBefore(e, this.items[i])) { i++; }
this.items.splice(i, 0, e);
```

i.e. advance past every leading element that `e` comes before, then splice
`e` in at that position. -/
def pqInsert (cmp : α → α → Bool) (e : α) : List α → List α
  | [] => [e]
  | x :: xs => if cmp e x then x :: pqInsert cmp e xs else e :: x :: xs

/-- `HDXLinear.add(e)`: priority queues with nonempty items use the ordered
insertion loop; every other case (including a priority queue that is still
empty) is `this.items.push(e)`.  Increments `addCount`. -/
def HDXLinear.add (l : HDXLinear α) (e : α) : HDXLinear α :=
  let items :=
    if l.type = PRIORITY_QUEUE ∧ 0 < l.items.length then
      pqInsert l.comesBefore e l.items
    else
      l.items ++ [e]
  { l with items := items, addCount := l.addCount + 1 }

/-- `HDXLinear.remove()`: disciplined removal.

* `STACK` and `PRIORITY_QUEUE`: `this.items.pop()` — removes and returns the
  last element (`undefined` on an empty array, modelled as `none`).
* `QUEUE`: `this.items.shift()` — removes and returns the first element.
* `RANDOM`: `index = Math.floor(Math.random() * length)`; returns
  `items[index]` and `splice`s it out.  The caller supplies the drawn
  `randIndex`; `Math.floor(Math.random()*length)` is always `< length` when
  the array is nonempty and `0` (with `items[0] === undefined`) when empty.
* `UNKNOWN`: no switch case matches, so `retval` stays `null`.

Always increments `removeCount`.  Returns the removed element (or `none`)
together with the updated container. -/
def HDXLinear.remove (l : HDXLinear α) (randIndex : Nat) :
    Option α × HDXLinear α :=
  let l' := { l with removeCount := l.removeCount + 1 }
  match l.type with
  | STACK | PRIORITY_QUEUE =>
    match l.items.getLast? with
    | none => (none, l')
    | some x => (some x, { l' with items := l.items.dropLast })
  | QUEUE =>
    match l.items with
    | [] => (none, l')
    | x :: xs => (some x, { l' with items := xs })
  | RANDOM =>
    match l.items.get? randIndex with
    | none => (none, l')
    | some x => (some x, { l' with items := l.items.eraseIdx randIndex })
  | UNKNOWN => (none, l')

/-- `HDXLinear.isEmpty()`: `this.items.length == 0`. -/
def HDXLinear.isEmpty (l : HDXLinear α) : Bool :=
  l.items.length == 0

/-- `HDXLinear.containsFieldMatching(field, value)` specialized to a
predicate on entries: true iff some currently-held entry satisfies it. -/
def HDXLinear.containsMatching (l : HDXLinear α) (pred : α → Bool) : Bool :=
  l.items.any pred

/-- Repeatedly `remove()` until `isEmpty()`, collecting the removed elements
in order; the removal sequence of a container (random draws fixed to 0,
which is irrelevant for non-`RANDOM` disciplines). -/
def drainFuel : Nat → HDXLinear α → List α
  | 0, _ => []
  | n + 1, l =>
    if l.isEmpty then []
    else
      match l.remove 0 with
      | (some x, l') => x :: drainFuel n l'
      | (none, _) => []

/-- The full removal sequence of a container. -/
def HDXLinear.removalSequence (l : HDXLinear α) : List α :=
  drainFuel l.items.length l

/-- Fold a sequence of `add`s into a container. -/
def HDXLinear.addAll (l : HDXLinear α) (es : List α) : HDXLinear α :=
  es.foldl HDXLinear.add l

/-- The ordering invariant maintained by the priority-queue discipline: no
element that appears earlier in `items` comes before (per the comparator) an
element that appears later, so the sequence is ordered by the comparator
with the extremal (first-to-remove) element at the removal end — `remove`
pops from the back. -/
def PQOrdered (cmp : α → α → Bool) (l : List α) : Prop :=
  l.Pairwise (fun a b => cmp a b = false)

/-! ## Graph data (external collaborator, read-only: vertices, edges,
per-vertex adjacency; see spec §6 "Graph data source") -/

/-- An edge of the graph (`graphEdges[i]` / `connections[i]`): two endpoint
vertex indices and a length.  Lengths are exposed by the graph data source;
`edgeLengthInMiles` (defined outside `src/`, in the loading layer) is
modelled as reading this stored length. -/
structure GraphEdge (V : Type) where
  v1 : Nat
  v2 : Nat
  length : V
deriving DecidableEq

instance {V : Type} [Inhabited V] : Inhabited (GraphEdge V) :=
  ⟨⟨0, 0, default⟩⟩

/-- The loaded graph: `waypoints.length` vertices, the `connections` /
`graphEdges` array, and per-vertex incident edge lists
(`waypoints[v].edgeList[i].edgeListIndex`). -/
structure Graph (V : Type) where
  numV : Nat
  edges : List (GraphEdge V)
  adj : List (List Nat)

/-- `graphEdges[i]` (in verified runs the index is always in bounds). -/
def Graph.edgeAt {V : Type} [Inhabited V] (g : Graph V) (i : Nat) :
    GraphEdge V :=
  g.edges.getD i default

/-- The endpoint of edge `eIdx` that is not `v`:
`edgeList[i].v1 == pointIndex ? edgeList[i].v2 : edgeList[i].v1`
(from `getAdjacentPoints`, hdxjsfuncs.js line 3641). -/
def Graph.farVertex {V : Type} [Inhabited V] (g : Graph V) (eIdx v : Nat) :
    Nat :=
  if (g.edgeAt eIdx).v1 = v then (g.edgeAt eIdx).v2 else (g.edgeAt eIdx).v1

/-- `Modelled from the spec:` `edgeLengthInMiles(graphEdges[i])` lives in the
loading layer (tmjsfuncs.js, outside `src/`); the spec's graph data source
exposes each edge's length, which we store on the edge itself. -/
def edgeLengthInMiles {V : Type} (e : GraphEdge V) : V :=
  e.length

/-- Well-formedness of the loaded graph data (guaranteed by the excluded
loading layer): adjacency lists cover exactly the vertices, and every listed
incident edge index is a valid edge that has the vertex as an endpoint, with
both endpoints in range. -/
def Graph.WF {V : Type} [Inhabited V] (g : Graph V) : Prop :=
  g.adj.length = g.numV ∧
  ∀ u, u < g.numV → ∀ i ∈ g.adj.getD u [],
    i < g.edges.length ∧
    ((g.edgeAt i).v1 = u ∨ (g.edgeAt i).v2 = u) ∧
    (g.edgeAt i).v1 < g.numV ∧ (g.edgeAt i).v2 < g.numV

/-- One vertex adjacency step: some incident edge of `u` leads to `w`. -/
def Graph.Adj {V : Type} [Inhabited V] (g : Graph V) (u w : Nat) : Prop :=
  ∃ i ∈ g.adj.getD u [], g.farVertex i u = w

/-- Reachability along adjacency steps. -/
def Graph.Reach {V : Type} [Inhabited V] (g : Graph V) (u w : Nat) : Prop :=
  Relation.ReflTransGen g.Adj u w

/-! ## LDV entries (hdxjsfuncs.js lines 2295-2313) -/

/-- `function LDVEntry(vIndex, val, connection)`: the vertex index, the
value (hop count / cumulative distance / edge length), the edge traversed to
get there (`-1`, modelled `none`, only for the dummy entry seeding a
search), and the derived source vertex `fromVIndex` (the `connection`'s
endpoint that is not `vIndex`; `-1`/`none` iff `connection` is). -/
structure LDVEntry (V : Type) where
  vIndex : Nat
  val : V
  connection : Option Nat
  fromVIndex : Option Nat
deriving DecidableEq

/-- The `LDVEntry` constructor: computes `fromVIndex` from the connection's
endpoints. -/
def mkLDVEntry {V : Type} [Inhabited V] (g : Graph V) (vIndex : Nat) (val : V)
    (connection : Option Nat) : LDVEntry V :=
  { vIndex := vIndex, val := val, connection := connection,
    fromVIndex :=
      match connection with
      | none => none
      | some c =>
        some (if (g.edgeAt c).v1 = vIndex then (g.edgeAt c).v2
              else (g.edgeAt c).v1) }

/-- An entry of `neighborsToLoop` (built in `checkNeighborsLoopTop`):
`{ to: neighbors[i], via: connection }` (`to` is a reserved token in Lean,
so the field is spelled `toV`). -/
structure Neighbor where
  toV : Nat
  via : Nat
deriving DecidableEq

/-! ## Controller and algorithm state -/

/-- `var hdxStates = { NO_DATA: 1, ..., AV_COMPLETE: 10 }`. -/
inductive HdxState where
  | NO_DATA
  | GRAPH_LOADED
  | WPT_LOADED
  | NMP_LOADED
  | WPL_LOADED
  | PTH_LOADED
  | AV_SELECTED
  | AV_RUNNING
  | AV_PAUSED
  | AV_COMPLETE
deriving DecidableEq

/-- The combined mutable state driving a traversal / spanning-tree run: the
controller's fields (`hdxAV.status/delay/traceActions/iterationDone/
nextAction`, plus a flag recording that the internal-error `alert` fired)
and the fields of `hdxTraversalsSpanningAVCommon` (lines 2341-2422).
Numeric statistics counters are `Int` (JS numbers that are freely
decremented).  `randCount` counts the `Math.random()` draws made by
`RANDOM`-discipline removals so a fixed stream of draws can be threaded
through the run. -/
structure Sim (V : Type) where
  status : HdxState
  delay : Int
  traceActions : Bool
  iterationDone : Bool
  nextAction : String
  internalError : Bool
  ldv : HDXLinear (LDVEntry V)
  addedV : List Bool
  discoveredV : List Bool
  discoveredE : List Bool
  numVSpanningTree : Int
  numESpanningTree : Int
  numVUndiscovered : Int
  numEUndiscovered : Int
  numEDiscardedOnDiscovery : Int
  numEDiscardedOnRemoval : Int
  componentNum : Int
  componentVList : List Nat
  componentEList : List Nat
  startUnaddedVSearch : Nat
  visiting : Option (LDVEntry V)
  neighborsToLoop : List Neighbor
  nextNeighbor : Option Neighbor
  treeEdges : List (LDVEntry V)
  stoppedBecause : String
  allComponentsDone : Bool
  startingVertex : Nat
  endingVertex : Nat
  stoppingCondition : String
  randCount : Nat

/-- The per-algorithm plug-ins of §4.3 that the common action table calls:
the loaded graph (globals `waypoints`/`connections`), the
`valForLDVEntry(oldEntry, nextNeighbor)` value-update rule, and the fixed
stream of random draws (each `randSeq k` is reduced mod the container size,
mirroring `Math.floor(Math.random() * length)`). -/
structure AVParams (V : Type) where
  graph : Graph V
  valForLDVEntry : LDVEntry V → Neighbor → V
  randSeq : Nat → Nat

/-- Reading a JS boolean array at an index: out-of-range reads give
`undefined`, which is falsy. -/
def getB (l : List Bool) (i : Nat) : Bool :=
  l.getD i false

/-- The `while (thisAV.addedV[thisAV.startUnaddedVSearch])
startUnaddedVSearch++;` scan of `startNewComponent` (line 3060): first index
`≥ i` whose `addedV` read is falsy (out-of-range reads stop the scan, as
`undefined` is falsy). -/
def firstUnaddedFrom (added : List Bool) (i : Nat) : Nat :=
  if _h : i < added.length then
    if getB added i then firstUnaddedFrom added (i + 1) else i
  else i
termination_by added.length - i
decreasing_by omega

/-- The neighbor list built at `checkNeighborsLoopTop` (lines 2829-2840):
for each incident edge of `v` (in adjacency order), unless it is the edge
just used to reach `v`, a `{to, via}` record of the far vertex and the
edge. -/
def buildNeighbors {V : Type} [Inhabited V] (g : Graph V) (v : Nat)
    (conn : Option Nat) : List Neighbor :=
  (g.adj.getD v []).filterMap fun eIdx =>
    if some eIdx = conn then none
    else some { toV := g.farVertex eIdx v, via := eIdx }

/-- The two-way branch ending several actions: continue at the top of the
appropriate loop (`"checkEndAdded"` for `StopAtEnd`, else
`"checkComponentDone"`). -/
def loopTopLabel (stopCond : String) : String :=
  if stopCond = "StopAtEnd" then "checkEndAdded" else "checkComponentDone"

/-! ## The action table of hdxTraversalsSpanningAVCommon (lines 2478-3171)

Each action's `code` is embedded as `AVParams → Sim → Option Sim`; `none`
models a thrown JS exception (dereferencing an `undefined` value), which in
verified runs never occurs.  Visualization-sink calls are omitted. -/

/-- `"START"` (line 2479): reset the bitmaps and statistics, mark the start
vertex discovered, seed the container with the dummy entry
`LDVEntry(startingVertex, 0, -1)`, and branch on the stopping condition.
(`startingVertex`/`endingVertex` are read from the selection surface at this
point; they are modelled as pre-populated fields.)  Sets
`iterationDone = true`. -/
def startCode {V : Type} [Inhabited V] [Zero V] (p : AVParams V) (s : Sim V) :
    Option (Sim V) :=
  let g := p.graph
  let s1 : Sim V := { s with
    addedV := List.replicate g.numV false,
    discoveredV := (List.replicate g.numV false).set s.startingVertex true,
    discoveredE := List.replicate g.edges.length false,
    numVSpanningTree := 0,
    numESpanningTree := 0,
    numVUndiscovered := (g.numV : Int) - 1,
    numEUndiscovered := (g.edges.length : Int),
    numEDiscardedOnDiscovery := 0,
    numEDiscardedOnRemoval := 0,
    componentNum := 0,
    startUnaddedVSearch := 0,
    ldv := s.ldv.add (mkLDVEntry g s.startingVertex 0 none),
    iterationDone := true }
  some <|
    if s.stoppingCondition = "StopAtEnd" then
      { s1 with nextAction := "checkEndAdded" }
    else if s.stoppingCondition = "FindReachable" then
      { s1 with nextAction := "checkComponentDone" }
    else
      { s1 with
          allComponentsDone := false,
          nextAction := "checkAllComponentsDone" }

/-- `"checkAllComponentsDone"` (line 2551). -/
def checkAllComponentsDoneCode {V : Type} [Inhabited V] (_ : AVParams V) (s : Sim V) :
    Option (Sim V) :=
  some <|
    if s.allComponentsDone then
      { s with
          stoppedBecause := "FoundAllComponents",
          nextAction := "cleanup",
          iterationDone := true }
    else
      { s with nextAction := "checkComponentDone", iterationDone := true }

/-- `"checkComponentDone"` (line 2570). -/
def checkComponentDoneCode {V : Type} [Inhabited V] (_ : AVParams V) (s : Sim V) :
    Option (Sim V) :=
  some <|
    if s.ldv.isEmpty then
      if s.stoppingCondition = "FindAll" then
        { s with nextAction := "finalizeComponent", iterationDone := true }
      else
        { s with
            stoppedBecause := "FoundComponent",
            nextAction := "cleanup",
            iterationDone := true }
    else
      { s with nextAction := "getPlaceFromLDV", iterationDone := true }

/-- `"checkEndAdded"` (line 2601): top of the `StopAtEnd` main loop. -/
def checkEndAddedCode {V : Type} [Inhabited V] (_ : AVParams V) (s : Sim V) :
    Option (Sim V) :=
  some <|
    if getB s.addedV s.endingVertex then
      { s with
          stoppedBecause := "FoundPath",
          nextAction := "cleanup",
          iterationDone := true }
    else
      { s with nextAction := "checkLDVEmpty", iterationDone := true }

/-- `"checkLDVEmpty"` (line 2623). -/
def checkLDVEmptyCode {V : Type} [Inhabited V] (_ : AVParams V) (s : Sim V) :
    Option (Sim V) :=
  some <|
    if s.ldv.isEmpty then { s with nextAction := "LDVEmpty" }
    else { s with nextAction := "getPlaceFromLDV" }

/-- `"LDVEmpty"` (line 2642): the container is empty, no path exists. -/
def LDVEmptyCode {V : Type} [Inhabited V] (_ : AVParams V) (s : Sim V) :
    Option (Sim V) :=
  some { s with stoppedBecause := "SearchFailed", nextAction := "cleanup" }

/-- `"getPlaceFromLDV"` (line 2656): `visiting = ldv.remove()`.  A removal
from an empty container yields `undefined` and the subsequent
`visiting.vIndex` dereference throws (modelled `none`); guarded runs never
reach that.  `Math.floor(Math.random()*length)` for the `RANDOM` discipline
is the next stream draw reduced mod the size. -/
def getPlaceFromLDVCode {V : Type} [Inhabited V] (p : AVParams V) (s : Sim V) :
    Option (Sim V) :=
  let ri := p.randSeq s.randCount % max 1 s.ldv.items.length
  match s.ldv.remove ri with
  | (some e, ldv') =>
    some { s with
             ldv := ldv',
             visiting := some e,
             randCount := s.randCount + 1,
             nextAction := "checkAdded" }
  | (none, _) => none

/-- `"checkAdded"` (line 2684). -/
def checkAddedCode {V : Type} [Inhabited V] (_ : AVParams V) (s : Sim V) :
    Option (Sim V) :=
  match s.visiting with
  | none => none
  | some v =>
    some { s with
             nextAction :=
               if getB s.addedV v.vIndex then "wasAdded" else "wasNotAdded" }

/-- `"wasAdded"` (line 2703): the place pulled from the container is already
in the tree; discard it "on removal" (the rest of the action's body only
recolors markers). -/
def wasAddedCode {V : Type} [Inhabited V] (_ : AVParams V) (s : Sim V) :
    Option (Sim V) :=
  match s.visiting with
  | none => none
  | some _ =>
    some { s with
             numEDiscardedOnRemoval := s.numEDiscardedOnRemoval + 1,
             nextAction := loopTopLabel s.stoppingCondition }

/-- `"wasNotAdded"` (line 2768): add the visited place to the spanning tree:
mark its vertex added, record it in the component lists and (for
`StopAtEnd`) in `treeEdges`, count the tree edge used to get here. -/
def wasNotAddedCode {V : Type} [Inhabited V] (_ : AVParams V) (s : Sim V) :
    Option (Sim V) :=
  match s.visiting with
  | none => none
  | some v =>
    let s1 : Sim V := { s with
      addedV := s.addedV.set v.vIndex true,
      componentVList := s.componentVList ++ [v.vIndex],
      numVSpanningTree := s.numVSpanningTree + 1 }
    let s2 : Sim V :=
      match v.connection with
      | some c =>
        { s1 with
            numESpanningTree := s1.numESpanningTree + 1,
            componentEList := s1.componentEList ++ [c] }
      | none => s1
    let s3 : Sim V :=
      if s.stoppingCondition = "StopAtEnd" then
        { s2 with treeEdges := s2.treeEdges ++ [v] }
      else s2
    some { s3 with nextAction := "checkNeighborsLoopTop" }

/-- `"checkNeighborsLoopTop"` (line 2823): push the `{to, via}` records of
every incident edge other than the arrival edge onto `neighborsToLoop`,
then enter the loop (or jump over it when there are no neighbors). -/
def checkNeighborsLoopTopCode {V : Type} [Inhabited V] (p : AVParams V) (s : Sim V) :
    Option (Sim V) :=
  match s.visiting with
  | none => none
  | some v =>
    let nbrs := s.neighborsToLoop ++ buildNeighbors p.graph v.vIndex v.connection
    some { s with
             neighborsToLoop := nbrs,
             nextAction :=
               if 0 < nbrs.length then "checkNeighborsLoopIf"
               else loopTopLabel s.stoppingCondition }

/-- `"checkNeighborsLoopIf"` (line 2865): `nextNeighbor =
neighborsToLoop.pop()` (from the back), then branch on whether its vertex is
already in the tree. -/
def checkNeighborsLoopIfCode {V : Type} [Inhabited V] (_ : AVParams V) (s : Sim V) :
    Option (Sim V) :=
  match s.neighborsToLoop.getLast? with
  | none => none
  | some n =>
    some { s with
             neighborsToLoop := s.neighborsToLoop.dropLast,
             nextNeighbor := some n,
             nextAction :=
               if getB s.addedV n.toV then "checkNeighborsLoopIfTrue"
               else "checkNeighborsLoopIfFalse" }

/-- `"checkNeighborsLoopIfTrue"` (line 2887): the neighbor is already in the
tree — discard the edge "on discovery" (counting it, and marking it
discovered if it was not yet). -/
def checkNeighborsLoopIfTrueCode {V : Type} [Inhabited V] (_ : AVParams V) (s : Sim V) :
    Option (Sim V) :=
  match s.nextNeighbor with
  | none => none
  | some n =>
    let s1 : Sim V :=
      { s with numEDiscardedOnDiscovery := s.numEDiscardedOnDiscovery + 1 }
    let s2 : Sim V :=
      if getB s1.discoveredE n.via then s1
      else
        { s1 with
            numEUndiscovered := s1.numEUndiscovered - 1,
            discoveredE := s1.discoveredE.set n.via true }
    some { s2 with
             nextAction :=
               if 0 < s2.neighborsToLoop.length then "checkNeighborsLoopIf"
               else loopTopLabel s.stoppingCondition }

/-- `"checkNeighborsLoopIfFalse"` (line 2921): somewhere new — mark the
neighbor vertex and edge discovered and insert a new entry with value
`valForLDVEntry(visiting, nextNeighbor)` into the container. -/
def checkNeighborsLoopIfFalseCode {V : Type} [Inhabited V] (p : AVParams V) (s : Sim V) :
    Option (Sim V) :=
  match s.visiting, s.nextNeighbor with
  | some v, some n =>
    let s1 : Sim V :=
      if getB s.discoveredV n.toV then s
      else
        { s with
            numVUndiscovered := s.numVUndiscovered - 1,
            discoveredV := s.discoveredV.set n.toV true }
    let s2 : Sim V :=
      { s1 with
          numEUndiscovered := s1.numEUndiscovered - 1,
          discoveredE := s1.discoveredE.set n.via true,
          ldv := s1.ldv.add
            (mkLDVEntry p.graph n.toV (p.valForLDVEntry v n) (some n.via)) }
    some { s2 with
             nextAction :=
               if 0 < s2.neighborsToLoop.length then "checkNeighborsLoopIf"
               else loopTopLabel s.stoppingCondition }
  | _, _ => none

/-- `"finalizeComponent"` (line 2984): recolors the completed component
(visualization only). -/
def finalizeComponentCode {V : Type} [Inhabited V] (_ : AVParams V) (s : Sim V) :
    Option (Sim V) :=
  some { s with nextAction := "checkAnyUnadded" }

/-- `"checkAnyUnadded"` (line 3030): `waypoints.length !=
numVSpanningTree`. -/
def checkAnyUnaddedCode {V : Type} [Inhabited V] (p : AVParams V) (s : Sim V) :
    Option (Sim V) :=
  some { s with
           nextAction :=
             if (p.graph.numV : Int) ≠ s.numVSpanningTree then
               "startNewComponent"
             else "doneToTrue" }

/-- `"startNewComponent"` (line 3047): clear the component lists, scan for
the lowest-indexed unadded vertex from `startUnaddedVSearch`, discover it
and seed the container with it.  Sets `iterationDone = true`. -/
def startNewComponentCode {V : Type} [Inhabited V] [Zero V] (p : AVParams V) (s : Sim V) :
    Option (Sim V) :=
  let i := firstUnaddedFrom s.addedV s.startUnaddedVSearch
  some { s with
    componentVList := [],
    componentEList := [],
    componentNum := s.componentNum + 1,
    startUnaddedVSearch := i,
    discoveredV := s.discoveredV.set i true,
    numVUndiscovered := s.numVUndiscovered - 1,
    ldv := s.ldv.add (mkLDVEntry p.graph i 0 none),
    iterationDone := true,
    nextAction := "checkAllComponentsDone" }

/-- `"doneToTrue"` (line 3084). -/
def doneToTrueCode {V : Type} [Inhabited V] (_ : AVParams V) (s : Sim V) :
    Option (Sim V) :=
  some { s with
           allComponentsDone := true,
           nextAction := "checkAllComponentsDone" }

/-- `"cleanup"` (line 3097): on `FoundPath` the recorded `treeEdges` are
walked backward from the end vertex for display (hiding non-path rows and
recoloring); the walk mutates only the visualization.  Sets `nextAction =
"DONE"` and `iterationDone = true`. -/
def cleanupCode {V : Type} [Inhabited V] (_ : AVParams V) (s : Sim V) :
    Option (Sim V) :=
  some { s with nextAction := "DONE", iterationDone := true }

/-- One named step of the table: `{ label, code }` (the `comment` and
`logMessage` fields are documentation/visualization only). -/
structure ActionEntry (V : Type) where
  label : String
  code : AVParams V → Sim V → Option (Sim V)

/-- `hdxTraversalsSpanningAVCommon.avActions`, in source order. -/
def avActions {V : Type} [Inhabited V] [Zero V] : List (ActionEntry V) :=
  [⟨"START", startCode⟩,
   ⟨"checkAllComponentsDone", checkAllComponentsDoneCode⟩,
   ⟨"checkComponentDone", checkComponentDoneCode⟩,
   ⟨"checkEndAdded", checkEndAddedCode⟩,
   ⟨"checkLDVEmpty", checkLDVEmptyCode⟩,
   ⟨"LDVEmpty", LDVEmptyCode⟩,
   ⟨"getPlaceFromLDV", getPlaceFromLDVCode⟩,
   ⟨"checkAdded", checkAddedCode⟩,
   ⟨"wasAdded", wasAddedCode⟩,
   ⟨"wasNotAdded", wasNotAddedCode⟩,
   ⟨"checkNeighborsLoopTop", checkNeighborsLoopTopCode⟩,
   ⟨"checkNeighborsLoopIf", checkNeighborsLoopIfCode⟩,
   ⟨"checkNeighborsLoopIfTrue", checkNeighborsLoopIfTrueCode⟩,
   ⟨"checkNeighborsLoopIfFalse", checkNeighborsLoopIfFalseCode⟩,
   ⟨"finalizeComponent", finalizeComponentCode⟩,
   ⟨"checkAnyUnadded", checkAnyUnaddedCode⟩,
   ⟨"startNewComponent", startNewComponentCode⟩,
   ⟨"doneToTrue", doneToTrueCode⟩,
   ⟨"cleanup", cleanupCode⟩]

/-- The lookup loop of `hdxAV.oneAction` (lines 214-220): scan the table for
an action whose `label` equals `nextAction`. -/
def lookupAction {V : Type} (lbl : String) :
    List (ActionEntry V) → Option (ActionEntry V)
  | [] => none
  | a :: rest => if lbl = a.label then some a else lookupAction lbl rest

/-! ## The step scheduler (hdxAV, lines 151-241) -/

/-- `hdxAV.oneAction(thisAV)` (line 211): look up `nextAction` in the action
table and execute it.  When no action matches, the JS alerts
`"HDX Internal error: bad AV action"`, forces the status to `AV_PAUSED` —
and then, because the branch does not return, throws a `TypeError` on
`currentAction.code(thisAV)` (a null dereference), so no action work is
performed in that step; this is the `.error` result carrying the
paused/reported state.  An exception thrown inside an action's own code is
likewise an `.error`. -/
def oneAction {V : Type} [Inhabited V] [Zero V] (p : AVParams V) (s : Sim V) :
    Except (Sim V) (Sim V) :=
  match lookupAction s.nextAction avActions with
  | none =>
    .error { s with status := HdxState.AV_PAUSED, internalError := true }
  | some a =>
    match a.code p s with
    | none => .error s
    | some s' => .ok s'

/-- The `while (!hdxAV.iterationDone)` loop body of `oneIteration` (lines
203-207), fuel-indexed; running out of fuel is an `.error` (the JS loop
would not have terminated within that budget). -/
def iterLoop {V : Type} [Inhabited V] [Zero V] (p : AVParams V) :
    Nat → Sim V → Except (Sim V) (Sim V)
  | 0, s => .error s
  | n + 1, s =>
    match oneAction p s with
    | .error e => .error e
    | .ok s' => if s'.iterationDone then .ok s' else iterLoop p n s'

/-- `hdxAV.oneIteration(thisAV)` (line 200): clear `iterationDone`, then run
actions until one sets it. -/
def oneIteration {V : Type} [Inhabited V] [Zero V] (p : AVParams V) (fuel : Nat)
    (s : Sim V) : Except (Sim V) (Sim V) :=
  iterLoop p fuel { s with iterationDone := false }

/-- The run-to-completion loop of `nextStep` (lines 160-165):
`while (hdxAV.nextAction != "DONE") { hdxAV.oneIteration(thisAV); }`,
with `m` the fuel for each inner iteration. -/
def runToCompletion {V : Type} [Inhabited V] [Zero V] (p : AVParams V) (m : Nat) :
    Nat → Sim V → Except (Sim V) (Sim V)
  | 0, s => if s.nextAction = "DONE" then .ok s else .error s
  | n + 1, s =>
    if s.nextAction = "DONE" then .ok s
    else
      match oneIteration p m s with
      | .error e => .error e
      | .ok s' => runToCompletion p m n s'

/-- Running the walk one action at a time until the terminal sentinel:
the composition of `oneAction` steps that the action-granularity mode
performs across its timed continuations. -/
def runActions {V : Type} [Inhabited V] [Zero V] (p : AVParams V) :
    Nat → Sim V → Except (Sim V) (Sim V)
  | 0, s => if s.nextAction = "DONE" then .ok s else .error s
  | n + 1, s =>
    if s.nextAction = "DONE" then .ok s
    else
      match oneAction p s with
      | .error e => .error e
      | .ok s' => runActions p n s'

/-- Exactly `n` `oneAction` steps (no sentinel check). -/
def stepsN {V : Type} [Inhabited V] [Zero V] (p : AVParams V) :
    Nat → Sim V → Except (Sim V) (Sim V)
  | 0, s => .ok s
  | n + 1, s =>
    match oneAction p s with
    | .error e => .error e
    | .ok s' => stepsN p n s'

/-- `s` evolves to `t` under some number of actions. -/
def ReachesSim {V : Type} [Inhabited V] [Zero V] (p : AVParams V) (s t : Sim V) :
    Prop :=
  ∃ n, stepsN p n s = .ok t

/-- `hdxAV.nextStep(thisAV)` (lines 151-196): the timed continuation body.
If the simulation is paused, do nothing.  With delay `0`, loop
`oneIteration` to completion and return.  With delay `-1`, force `Paused`
(single-step mode), then — in either remaining case — do one action (when
tracing actions) or one iteration, and either schedule the next continuation
(not reaching `"DONE"`) or transition to `AV_COMPLETE`. -/
def nextStep {V : Type} [Inhabited V] [Zero V] (p : AVParams V) (fuel : Nat)
    (s : Sim V) : Except (Sim V) (Sim V) :=
  if s.status = HdxState.AV_PAUSED then .ok s
  else if s.delay = 0 then runToCompletion p fuel fuel s
  else
    let s0 := if s.delay = -1 then { s with status := HdxState.AV_PAUSED } else s
    match (if s0.traceActions then oneAction p s0 else oneIteration p fuel s0) with
    | .error e => .error e
    | .ok s1 =>
      if s1.nextAction = "DONE" then
        .ok { s1 with status := HdxState.AV_COMPLETE }
      else .ok s1

/-- The observable algorithm state: everything except the `iterationDone`
pacing flag and the speed setting (neither is read by any action). -/
def Sim.scrub {V : Type} (s : Sim V) : Sim V :=
  { s with iterationDone := false, delay := 0 }

/-- The state in which `startPausePressed` starts a prepared run (lines
5483-5511): status `AV_RUNNING`, `nextAction = "START"`, a fresh container
from the algorithm's `createLDV` (with its comparator installed), the
selection surface's start/end vertices and stopping condition, and all of
the AV's mutable fields at their declaration-time initial values. -/
def startSim {V : Type} (ty : HDXLinearType)
    (cmp : LDVEntry V → LDVEntry V → Bool)
    (stopCond : String) (startV endV : Nat) : Sim V :=
  { status := HdxState.AV_RUNNING,
    delay := 50,
    traceActions := true,
    iterationDone := false,
    nextAction := "START",
    internalError := false,
    ldv := HDXLinear.new ty cmp,
    addedV := [],
    discoveredV := [],
    discoveredE := [],
    numVSpanningTree := 0,
    numESpanningTree := 0,
    numVUndiscovered := 0,
    numEUndiscovered := 0,
    numEDiscardedOnDiscovery := 0,
    numEDiscardedOnRemoval := 0,
    componentNum := 0,
    componentVList := [],
    componentEList := [],
    startUnaddedVSearch := 0,
    visiting := none,
    neighborsToLoop := [],
    nextNeighbor := none,
    treeEdges := [],
    stoppedBecause := "StillRunning",
    allComponentsDone := false,
    startingVertex := startV,
    endingVertex := endV,
    stoppingCondition := stopCond,
    randCount := 0 }

/-! ## The Dijkstra instantiation (hdxDijkstraAV, lines 3470-3544) -/

/-- `hdxDijkstraAV.comparator`: `a.val < b.val`. -/
def dijkstraComparator (a b : LDVEntry Int) : Bool :=
  decide (a.val < b.val)

/-- `hdxDijkstraAV.valForLDVEntry`: the old cumulative distance plus the
edge length. -/
def dijkstraValForLDVEntry (g : Graph Int) (oldEntry : LDVEntry Int)
    (n : Neighbor) : Int :=
  oldEntry.val + edgeLengthInMiles (g.edgeAt n.via)

/-- Parameters of a Dijkstra run on graph `g`. -/
def dijkstraParams (g : Graph Int) (randSeq : Nat → Nat) : AVParams Int :=
  { graph := g, valForLDVEntry := dijkstraValForLDVEntry g,
    randSeq := randSeq }

/-- A Dijkstra `StopAtEnd` run's starting state: `createLDV` returns a
`PRIORITY_QUEUE` `HDXLinear` and `prepToStart` installs the comparator. -/
def dijkstraStart (startV endV : Nat) : Sim Int :=
  startSim PRIORITY_QUEUE dijkstraComparator "StopAtEnd" startV endV

/-- A two-element list in one of its two orders. -/
def ord2 (b : Bool) (x y : Nat) : List Nat :=
  if b then [x, y] else [y, x]

/-- The 4-vertex cycle graph 0-1, 1-2, 2-3, 3-0 with all edges of length 1,
with each vertex's incident edge list in an order selected by one boolean
(covering every edge iteration order the traversal can see). -/
def cycle4 (b0 b1 b2 b3 : Bool) : Graph Int :=
  { numV := 4,
    edges := [⟨0, 1, 1⟩, ⟨1, 2, 1⟩, ⟨2, 3, 1⟩, ⟨3, 0, 1⟩],
    adj := [ord2 b0 0 3, ord2 b1 0 1, ord2 b2 1 2, ord2 b3 2 3] }

/-! ## Concrete instances used to settle the container claims -/

/-- The "lower value first" comparator of the spec's priority-container
scenario. -/
def natLowerFirst (a b : Nat) : Bool :=
  decide (a < b)

/-- Entries tagged with an insertion stamp: `(priority value, stamp)`.  The
comparator looks only at the value — exactly the shape of the Dijkstra/Prim
comparators (`a.val < b.val`), under which distinct entries can have equal
priority. -/
def stampCmp (a b : Nat × Nat) : Bool :=
  decide (a.1 < b.1)

/-- A priority-discipline container filled by the given insertion
sequence. -/
def buildPQ (es : List (Nat × Nat)) : HDXLinear (Nat × Nat) :=
  (HDXLinear.new PRIORITY_QUEUE stampCmp).addAll es

/-- Example run parameters: Dijkstra on the cycle with canonical adjacency
order and a constant random stream. -/
def egParams : AVParams Int :=
  dijkstraParams (cycle4 true true true true) (fun _ => 0)

/-- A mid-run state whose `nextAction` names no action of the table. -/
def c5State : Sim Int :=
  { dijkstraStart 0 2 with nextAction := "invalidLabel" }

/-- A state with a pending action when the controller has already left
`Running` for `Complete` (not `Paused`): what a previously scheduled timed
continuation would see on firing. -/
def c9State : Sim Int :=
  { dijkstraStart 0 2 with
      status := HdxState.AV_COMPLETE,
      nextAction := "cleanup" }

/-- The same pending-action state, but `Paused`. -/
def c9PausedState : Sim Int :=
  { dijkstraStart 0 2 with
      status := HdxState.AV_PAUSED,
      nextAction := "cleanup" }

/-- One full Dijkstra `StopAtEnd` run from vertex 0 to vertex 2 on the
4-cycle with the given adjacency orders, one action at a time to `"DONE"`
(200 actions of fuel are plenty). -/
def dijkstraCycle4Run (b0 b1 b2 b3 : Bool) : Option (Sim Int) :=
  (runActions (dijkstraParams (cycle4 b0 b1 b2 b3) (fun _ => 0)) 200
    (dijkstraStart 0 2)).toOption

/-- The effect on the algorithm state of handling one pending neighbor
record `n` of the just-added entry `v`, exactly as the claim (spec §4.3 main
loop) describes it and as the `checkNeighborsLoopIfTrue` /
`checkNeighborsLoopIfFalse` action bodies implement it: if the far vertex is
already added, the edge is discarded on discovery (counted, and marked
discovered if not yet); otherwise the far vertex and the edge are marked
discovered and a new entry with value `valForLDVEntry(v, n)` is inserted
into the container. -/
def neighborStep {V : Type} [Inhabited V] (p : AVParams V) (v : LDVEntry V)
    (n : Neighbor) (s : Sim V) : Sim V :=
  if getB s.addedV n.toV then
    let s1 : Sim V :=
      { s with numEDiscardedOnDiscovery := s.numEDiscardedOnDiscovery + 1 }
    if getB s1.discoveredE n.via then s1
    else
      { s1 with
          numEUndiscovered := s1.numEUndiscovered - 1,
          discoveredE := s1.discoveredE.set n.via true }
  else
    let s1 : Sim V :=
      if getB s.discoveredV n.toV then s
      else
        { s with
            numVUndiscovered := s.numVUndiscovered - 1,
            discoveredV := s.discoveredV.set n.toV true }
    { s1 with
        numEUndiscovered := s1.numEUndiscovered - 1,
        discoveredE := s1.discoveredE.set n.via true,
        ldv := s1.ldv.add
          (mkLDVEntry p.graph n.toV (p.valForLDVEntry v n) (some n.via)) }

/-- `neighborStep` folded over a whole list of pending neighbor records, in
processing order. -/
def processNeighbors {V : Type} [Inhabited V] (p : AVParams V)
    (v : LDVEntry V) : List Neighbor → Sim V → Sim V
  | [], s => s
  | n :: rest, s => processNeighbors p v rest (neighborStep p v n s)

/-- The state recorded by `wasNotAdded` (line 2768) when the visited entry
`v` joins the spanning tree: its vertex marked added, the vertex (and, when
an edge was used, the edge) appended to the component lists and counters,
and — for `StopAtEnd` — the entry pushed onto `treeEdges`; the walk then
moves to `checkNeighborsLoopTop`. -/
def addToTreeState {V : Type} (s : Sim V) (v : LDVEntry V) : Sim V :=
  let s1 : Sim V := { s with
    addedV := s.addedV.set v.vIndex true,
    componentVList := s.componentVList ++ [v.vIndex],
    numVSpanningTree := s.numVSpanningTree + 1 }
  let s2 : Sim V :=
    match v.connection with
    | some c =>
      { s1 with
          numESpanningTree := s1.numESpanningTree + 1,
          componentEList := s1.componentEList ++ [c] }
    | none => s1
  let s3 : Sim V :=
    if s.stoppingCondition = "StopAtEnd" then
      { s2 with treeEdges := s2.treeEdges ++ [v] }
    else s2
  { s3 with nextAction := "checkNeighborsLoopTop" }

/-- A concrete mid-run entry for witnesses: vertex 1 reached over edge 0 of
the cycle graph. -/
def c2Entry : LDVEntry Int :=
  mkLDVEntry (cycle4 true true true true) 1 1 (some 0)

/-- A concrete mid-run state for witnesses. -/
def c2State : Sim Int :=
  { dijkstraStart 0 2 with
      visiting := some c2Entry,
      addedV := [true, false, false, false],
      discoveredV := [true, true, false, false],
      discoveredE := [true, false, false, false] }

/-- The state right after the `"START"` action of the example run. -/
def c8Post : Sim Int :=
  match oneAction egParams (dijkstraStart 0 2) with
  | .ok s' => s'
  | .error e => e

/-- The state right after a `"wasAdded"` discard on the example mid-run
state. -/
def c8bPost : Sim Int :=
  match oneAction egParams { c2State with nextAction := "wasAdded" } with
  | .ok s' => s'
  | .error e => e

/-- The final state of the example Dijkstra run, one action at a time to
`"DONE"`. -/
def c3Final : Sim Int :=
  match runActions egParams 200 (dijkstraStart 0 2) with
  | .ok s => s
  | .error e => e

/-- The invariant holding at the top of the `StopAtEnd` main loop
(`checkEndAdded`): the stopping condition is still `StopAtEnd`, the
container has a working removal discipline, the added bitmap covers the
vertices, the pending-neighbor list is drained, every container entry names
an in-range vertex reachable from the start, every added vertex is reachable
from the start, and the end vertex is not reachable from the start. -/
def SearchInv {V : Type} [Inhabited V] (p : AVParams V) (s : Sim V) : Prop :=
  s.stoppingCondition = "StopAtEnd" ∧
  s.ldv.type ≠ UNKNOWN ∧
  s.addedV.length = p.graph.numV ∧
  s.neighborsToLoop = [] ∧
  (∀ e ∈ s.ldv.items,
    p.graph.Reach s.startingVertex e.vIndex ∧ e.vIndex < p.graph.numV) ∧
  (∀ i, getB s.addedV i = true → p.graph.Reach s.startingVertex i) ∧
  ¬ p.graph.Reach s.startingVertex s.endingVertex

/-- The state produced by the `"START"` action of a `StopAtEnd` run begun
from `startSim`: fresh bitmaps and statistics, the dummy entry seeding the
container, and control at the top of the main loop. -/
def postStartState {V : Type} [Inhabited V] [Zero V] (p : AVParams V)
    (ty : HDXLinearType) (cmp : LDVEntry V → LDVEntry V → Bool)
    (startV endV : Nat) : Sim V :=
  { startSim ty cmp "StopAtEnd" startV endV with
      addedV := List.replicate p.graph.numV false,
      discoveredV := (List.replicate p.graph.numV false).set startV true,
      discoveredE := List.replicate p.graph.edges.length false,
      numVUndiscovered := (p.graph.numV : Int) - 1,
      numEUndiscovered := (p.graph.edges.length : Int),
      ldv := (HDXLinear.new ty cmp).add (mkLDVEntry p.graph startV 0 none),
      iterationDone := true,
      nextAction := "checkEndAdded" }

/-- A 4-vertex graph in two components (edge 0-1 and edge 2-3): no path
from vertex 0 to vertex 2. -/
def disconGraph : Graph Int :=
  { numV := 4, edges := [⟨0, 1, 1⟩, ⟨2, 3, 1⟩], adj := [[0], [0], [1], [1]] }

section PQLemmas

variable {α : Type} (cmp : α → α → Bool)

theorem pqInsert_mem {e x : α} {l : List α} :
    x ∈ pqInsert cmp e l ↔ x = e ∨ x ∈ l := by
  induction l with
  | nil => simp [pqInsert]
  | cons a as ih =>
    simp only [pqInsert]
    by_cases h : cmp e a = true
    · rw [if_pos h]
      simp only [List.mem_cons, ih]
      try tauto
    · rw [if_neg h]
      simp only [List.mem_cons]
      try tauto

theorem pqInsert_length (e : α) (l : List α) :
    (pqInsert cmp e l).length = l.length + 1 := by
  induction l with
  | nil => rfl
  | cons a as ih =>
    by_cases h : cmp e a = true <;> simp [pqInsert, h, ih]

theorem mem_of_getLast?_eq_some {l : List α} {m : α}
    (h : l.getLast? = some m) : m ∈ l := by
  have hne : l ≠ [] := by rintro rfl; simp at h
  rw [List.getLast?_eq_getLast_of_ne_nil hne] at h
  have h2 := Option.some.inj h
  rw [← h2]
  exact List.getLast_mem hne

/-- If the comparator is asymmetric and negatively transitive (both hold for
any strict total order such as `a.val < b.val`), then the insertion loop
preserves the ordering invariant. -/
theorem pqInsert_ordered
    (hasymm : ∀ a b, cmp a b = true → cmp b a = false)
    (hneg : ∀ a b c, cmp a b = false → cmp b c = false → cmp a c = false)
    (e : α) {l : List α} (hl : PQOrdered cmp l) :
    PQOrdered cmp (pqInsert cmp e l) := by
  induction l with
  | nil =>
    simp [pqInsert, PQOrdered]
  | cons a as ih =>
    rcases List.pairwise_cons.mp hl with ⟨ha, has⟩
    simp only [pqInsert]
    by_cases h : cmp e a = true
    · -- e comes before a: keep a in front, insert into the tail
      rw [if_pos h]
      refine List.pairwise_cons.mpr ⟨?_, ih has⟩
      intro b hb
      rcases (pqInsert_mem cmp).mp hb with rfl | hb'
      · exact hasymm _ _ h
      · exact ha _ hb'
    · -- e does not come before a: e goes in front of everything
      rw [if_neg h]
      have hax : cmp e a = false := Bool.eq_false_iff.mpr h
      refine List.pairwise_cons.mpr ⟨?_, hl⟩
      intro b hb
      rcases List.mem_cons.mp hb with rfl | hb'
      · exact hax
      · exact hneg _ _ _ hax (ha _ hb')

/-- In an ordered sequence the popped (last) element is extremal: no element
of the container comes before it (asymmetry of the comparator gives
irreflexivity for the element itself). -/
theorem pqOrdered_last_extremal
    (hasymm : ∀ a b, cmp a b = true → cmp b a = false)
    {l : List α} (hl : PQOrdered cmp l)
    {m : α} (hm : l.getLast? = some m) :
    ∀ x ∈ l, cmp x m = false := by
  have hirr : ∀ a : α, cmp a a = false := by
    intro a
    by_cases h : cmp a a = true
    · have h2 := hasymm a a h
      rw [h2] at h
      exact absurd h (by decide)
    · exact Bool.eq_false_iff.mpr h
  induction l with
  | nil => simp at hm
  | cons a as ih =>
    rcases List.pairwise_cons.mp hl with ⟨ha, has⟩
    intro x hx
    cases as with
    | nil =>
      have hma : m = a := by
        simpa [List.getLast?] using hm.symm
      have hxa : x = a := List.mem_singleton.mp hx
      subst hma
      subst hxa
      exact hirr x
    | cons b bs =>
      have hm' : (b :: bs).getLast? = some m := by
        rw [List.getLast?_cons_cons] at hm
        exact hm
      rcases List.mem_cons.mp hx with rfl | hx'
      · exact ha _ (mem_of_getLast?_eq_some hm')
      · exact ih has hm' x hx'

end PQLemmas

/-! ## Container helper lemmas -/

theorem mem_dropLast_mem {α : Type} {x : α} :
    ∀ {l : List α}, x ∈ l.dropLast → x ∈ l
  | [], h => by simp at h
  | [a], h => by simp [List.dropLast] at h
  | a :: b :: l, h => by
    rw [List.dropLast_cons₂] at h
    rcases List.mem_cons.mp h with rfl | h'
    · exact List.mem_cons_self _ _
    · exact List.mem_cons_of_mem _ (mem_dropLast_mem h')

theorem HDXLinear.add_type {α : Type} (l : HDXLinear α) (e : α) :
    (l.add e).type = l.type := rfl

theorem HDXLinear.add_comesBefore {α : Type} (l : HDXLinear α) (e : α) :
    (l.add e).comesBefore = l.comesBefore := rfl

/-- The items after a priority-queue `add`, in both branches of the source's
length test, are the insertion-loop result. -/
theorem HDXLinear.add_items_pq {α : Type} (l : HDXLinear α) (e : α)
    (hty : l.type = PRIORITY_QUEUE) :
    (l.add e).items = pqInsert l.comesBefore e l.items := by
  unfold HDXLinear.add
  rcases hitems : l.items with _ | ⟨x, xs⟩
  · rw [if_neg]
    · simp [pqInsert]
    · simp [hitems]
  · rw [if_pos ⟨hty, by simp [hitems]⟩]

/-- The insertion loop splices the new element right after the longest
prefix of elements it comes before. -/
theorem pqInsert_eq_takeWhile {α : Type} (cmp : α → α → Bool) (e : α) :
    ∀ (l : List α),
      pqInsert cmp e l = l.takeWhile (cmp e) ++ e :: l.dropWhile (cmp e)
  | [] => by simp [pqInsert]
  | x :: xs => by
    by_cases h : cmp e x = true
    · simp only [pqInsert, h, if_pos, List.takeWhile_cons, List.dropWhile_cons,
        List.cons_append]
      rw [pqInsert_eq_takeWhile cmp e xs]
    · have h' : cmp e x = false := Bool.eq_false_iff.mpr h
      simp only [pqInsert, h', List.takeWhile_cons, List.dropWhile_cons]
      simp [h']

theorem HDXLinear.addAll_type {α : Type} :
    ∀ (es : List α) (l : HDXLinear α), (l.addAll es).type = l.type
  | [], _ => rfl
  | _ :: es, l => HDXLinear.addAll_type es (l.add _)

theorem HDXLinear.addAll_comesBefore {α : Type} :
    ∀ (es : List α) (l : HDXLinear α),
      (l.addAll es).comesBefore = l.comesBefore
  | [], _ => rfl
  | _ :: es, l => HDXLinear.addAll_comesBefore es (l.add _)

/-- For a `pop`-removal container (stack or priority queue), repeatedly
removing drains the items back to front. -/
theorem drainFuel_pop {α : Type} :
    ∀ (xs : List α) (l : HDXLinear α), l.type = PRIORITY_QUEUE →
      l.items = xs → drainFuel xs.length l = xs.reverse := by
  intro xs
  induction xs using List.reverseRecOn with
  | nil =>
    intro l _ hitems
    simp [drainFuel]
  | append_singleton ys a ih =>
    intro l hty hitems
    have hne : l.isEmpty = false := by
      simp [HDXLinear.isEmpty, hitems]
    have hrem : l.remove 0 =
        (some a, { l with removeCount := l.removeCount + 1, items := ys }) := by
      unfold HDXLinear.remove
      rw [hty]
      simp only [hitems, List.getLast?_concat, List.dropLast_concat]
    have hlen : (ys ++ [a]).length = ys.length + 1 := by simp
    rw [hlen]
    unfold drainFuel
    rw [hne]
    simp only [Bool.false_eq_true, if_neg, hrem, not_false_iff]
    rw [ih ⟨l.type, l.comesBefore, ys, l.addCount, l.removeCount + 1⟩ hty rfl]
    simp

/-- The removal sequence of a priority-discipline container is its item
sequence back to front. -/
theorem removalSequence_pq {α : Type} (l : HDXLinear α)
    (hty : l.type = PRIORITY_QUEUE) :
    l.removalSequence = l.items.reverse :=
  drainFuel_pop l.items l hty rfl

/-- One priority `add`, viewed through the reversed item order (= upcoming
removal order) and restricted to entries of priority value `v`: entries of
other priorities are untouched, and an entry of priority `v` lands at the
very end of the class (it will be removed after every already-present entry
of its priority). -/
theorem add_reverse_filter (l : HDXLinear (Nat × Nat))
    (hty : l.type = PRIORITY_QUEUE) (hcmp : l.comesBefore = stampCmp)
    (e : Nat × Nat) (v : Nat) :
    ((l.add e).items).reverse.filter (fun x => x.1 == v) =
      l.items.reverse.filter (fun x => x.1 == v) ++
        (if e.1 == v then [e] else []) := by
  rw [HDXLinear.add_items_pq l e hty, hcmp, pqInsert_eq_takeWhile]
  have hsplit : l.items.reverse =
      (l.items.dropWhile (stampCmp e)).reverse ++
        (l.items.takeWhile (stampCmp e)).reverse := by
    rw [← List.reverse_append, List.takeWhile_append_dropWhile]
  by_cases hev : (e.1 == v) = true
  · -- the new entry belongs to class v; the takeWhile prefix has no class-v
    -- entries, since each of its members x satisfies e.1 < x.1
    have htake : ∀ x ∈ (l.items.takeWhile (stampCmp e)).reverse,
        ¬((fun x : Nat × Nat => x.1 == v) x = true) := by
      intro x hx
      have hx' := List.mem_reverse.mp hx
      have hpred := List.mem_takeWhile_imp hx'
      have hlt : e.1 < x.1 := of_decide_eq_true hpred
      have hv : e.1 = v := by simpa using hev
      simp only [beq_iff_eq]
      omega
    rw [List.reverse_append, List.reverse_cons, hsplit]
    rw [List.filter_append, List.filter_append, List.filter_append]
    rw [List.filter_eq_nil_iff.mpr htake]
    simp [hev]
  · have hev' : (e.1 == v) = false := Bool.eq_false_iff.mpr hev
    rw [List.reverse_append, List.reverse_cons, hsplit]
    rw [List.filter_append, List.filter_append, List.filter_append]
    simp [hev']

/-- Folding a whole insertion sequence: the upcoming removal order
restricted to priority class `v` is exactly the class-`v` subsequence of the
insertion order. -/
theorem addAll_reverse_filter :
    ∀ (es : List (Nat × Nat)) (l : HDXLinear (Nat × Nat)),
      l.type = PRIORITY_QUEUE → l.comesBefore = stampCmp → ∀ v,
      ((l.addAll es).items).reverse.filter (fun x => x.1 == v) =
        l.items.reverse.filter (fun x => x.1 == v) ++
          es.filter (fun x => x.1 == v)
  | [], l, _, _, v => by simp [HDXLinear.addAll]
  | e :: es, l, hty, hcmp, v => by
    have h1 := addAll_reverse_filter es (l.add e)
      (by rw [HDXLinear.add_type]; exact hty)
      (by rw [HDXLinear.add_comesBefore]; exact hcmp) v
    show (((l.add e).addAll es).items).reverse.filter _ = _
    rw [h1, add_reverse_filter l hty hcmp e v]
    by_cases hev : (e.1 == v) = true <;>
      simp [hev, List.filter_cons, List.append_assoc]

/-! ## Claim theorems: the Discovery Container -/

/-- C1: For every Priority-discipline container with a total-order comparator
(asymmetric and negatively transitive), `add` inserts each entry at the
position that keeps the internal sequence ordered by the comparator
(`PQOrdered`: the extremal element sits at the removal end), and `remove`
returns the extremal element per the comparator (no element that remains
comes before it); in particular, a priority container seeded with entries of
value `[5, 3, 8, 1]` inserted in that order under the "lower value first"
comparator removes them in the order `1, 3, 5, 8`. -/
theorem priority_add_ordered_remove_extremal {α : Type}
    (cmp : α → α → Bool)
    (hasymm : ∀ a b, cmp a b = true → cmp b a = false)
    (hneg : ∀ a b c, cmp a b = false → cmp b c = false → cmp a c = false)
    (l : HDXLinear α) (hty : l.type = PRIORITY_QUEUE)
    (hcmp : l.comesBefore = cmp) (hord : PQOrdered cmp l.items) :
    (∀ e, PQOrdered cmp ((l.add e).items)) ∧
    (∀ ri m l', l.remove ri = (some m, l') →
      m ∈ l.items ∧ ∀ x ∈ l'.items, cmp x m = false) ∧
    ((HDXLinear.new PRIORITY_QUEUE natLowerFirst).addAll
        [5, 3, 8, 1]).removalSequence = [1, 3, 5, 8] := by
  refine ⟨?_, ?_, by decide⟩
  · intro e
    rw [HDXLinear.add_items_pq l e hty, hcmp]
    exact pqInsert_ordered cmp hasymm hneg e hord
  · intro ri m l' hrem
    unfold HDXLinear.remove at hrem
    rw [hty] at hrem
    rcases hlast : l.items.getLast? with _ | x
    · rw [hlast] at hrem
      exact absurd (congrArg Prod.fst hrem) (by simp)
    · rw [hlast] at hrem
      have hm : x = m := by
        have := congrArg Prod.fst hrem
        simpa using this
      subst hm
      have hl' : l'.items = l.items.dropLast := by
        have := congrArg Prod.snd hrem
        simp only at this
        rw [← this]
      constructor
      · exact mem_of_getLast?_eq_some hlast
      · intro y hy
        rw [hl'] at hy
        exact pqOrdered_last_extremal cmp hasymm hord hlast y
          (mem_dropLast_mem hy)

/-- C1 witness: the theorem applied to a concrete ordered priority container
over `Nat` with the "lower value first" comparator. -/
theorem priority_add_ordered_remove_extremal_witness :
    (∀ e, PQOrdered natLowerFirst
      (((⟨PRIORITY_QUEUE, natLowerFirst, [8, 3, 1], 3, 0⟩ :
        HDXLinear Nat).add e).items)) ∧
    (∀ ri m l', (⟨PRIORITY_QUEUE, natLowerFirst, [8, 3, 1], 3, 0⟩ :
        HDXLinear Nat).remove ri = (some m, l') →
      m ∈ [8, 3, 1] ∧ ∀ x ∈ l'.items, natLowerFirst x m = false) ∧
    ((HDXLinear.new PRIORITY_QUEUE natLowerFirst).addAll
        [5, 3, 8, 1]).removalSequence = [1, 3, 5, 8] :=
  priority_add_ordered_remove_extremal natLowerFirst
    (fun a b h => by
      simp only [natLowerFirst, decide_eq_true_eq] at h
      simp only [natLowerFirst, decide_eq_false_iff_not]
      omega)
    (fun a b c h1 h2 => by
      simp only [natLowerFirst, decide_eq_false_iff_not] at h1 h2
      simp only [natLowerFirst, decide_eq_false_iff_not]
      omega)
    ⟨PRIORITY_QUEUE, natLowerFirst, [8, 3, 1], 3, 0⟩ rfl rfl
    (by simp only [PQOrdered]; decide)

/-- C6: for every discipline (`Lifo`/stack, `Fifo`/queue, `Random`,
`Priority`), calling `remove()` on an empty Discovery Container produces no
entry — `pop`/`shift`/indexing an empty array yield `undefined`, modelled
`none`, so no `LDVEntry` ever comes back and callers must check `isEmpty()`
first.  (The `UNKNOWN` sentinel type behaves the same.)  The container stays
empty. -/
theorem remove_on_empty_yields_no_entry {α : Type} (l : HDXLinear α)
    (ri : Nat) (h : l.isEmpty = true) :
    (l.remove ri).1 = none ∧ (l.remove ri).2.items = [] := by
  have hnil : l.items = [] := by
    have hlen : l.items.length = 0 := by
      simpa [HDXLinear.isEmpty] using h
    exact List.length_eq_zero.mp hlen
  unfold HDXLinear.remove
  rcases l.type with _ | _ | _ | _ | _ <;>
    simp [hnil]

/-- C6 witness: the theorem applied to each of the four disciplines' empty
containers. -/
theorem remove_on_empty_yields_no_entry_witness :
    (((HDXLinear.new STACK natLowerFirst).remove 0).1 = none ∧
      ((HDXLinear.new STACK natLowerFirst).remove 0).2.items = []) ∧
    (((HDXLinear.new QUEUE natLowerFirst).remove 0).1 = none ∧
      ((HDXLinear.new QUEUE natLowerFirst).remove 0).2.items = []) ∧
    (((HDXLinear.new RANDOM natLowerFirst).remove 0).1 = none ∧
      ((HDXLinear.new RANDOM natLowerFirst).remove 0).2.items = []) ∧
    (((HDXLinear.new PRIORITY_QUEUE natLowerFirst).remove 0).1 = none ∧
      ((HDXLinear.new PRIORITY_QUEUE natLowerFirst).remove 0).2.items = []) :=
  ⟨remove_on_empty_yields_no_entry _ 0 (by decide),
   remove_on_empty_yields_no_entry _ 0 (by decide),
   remove_on_empty_yields_no_entry _ 0 (by decide),
   remove_on_empty_yields_no_entry _ 0 (by decide)⟩

/-- C10: in a Priority-discipline container (with the value comparator used
by Dijkstra's/Prim's, under which distinct entries can tie), entries of
equal priority are removed in FIFO (insertion) order: (1) `add` splices the
new entry right after the entries it comes before — all of strictly better
priority — and hence before every already-present entry of equal priority;
(2) `remove` pops from the end of the internal sequence; (3) consequently
the removal sequence restricted to any one priority class equals the
insertion sequence restricted to that class, so among equal-priority entries
the earliest-inserted is always removed first. -/
theorem priority_equal_priority_fifo :
    (∀ (l : HDXLinear (Nat × Nat)) (e : Nat × Nat),
      l.type = PRIORITY_QUEUE → l.comesBefore = stampCmp →
      (l.add e).items =
        l.items.takeWhile (stampCmp e) ++ e :: l.items.dropWhile (stampCmp e) ∧
      ∀ x ∈ l.items.takeWhile (stampCmp e), e.1 < x.1) ∧
    (∀ (l : HDXLinear (Nat × Nat)) (ri : Nat), l.type = PRIORITY_QUEUE →
      (l.remove ri).1 = l.items.getLast?) ∧
    (∀ (es : List (Nat × Nat)) (v : Nat),
      (buildPQ es).removalSequence.filter (fun x => x.1 == v) =
        es.filter (fun x => x.1 == v)) := by
  refine ⟨?_, ?_, ?_⟩
  · intro l e hty hcmp
    constructor
    · rw [HDXLinear.add_items_pq l e hty, hcmp, pqInsert_eq_takeWhile]
    · intro x hx
      have h1 : stampCmp e x = true := List.mem_takeWhile_imp hx
      simpa [stampCmp] using h1
  · intro l ri hty
    unfold HDXLinear.remove
    rw [hty]
    rcases hlast : l.items.getLast? with _ | x <;> simp [hlast]
  · intro es v
    have hty : (buildPQ es).type = PRIORITY_QUEUE :=
      HDXLinear.addAll_type es _
    rw [removalSequence_pq _ hty]
    have h := addAll_reverse_filter es (HDXLinear.new PRIORITY_QUEUE stampCmp)
      rfl rfl v
    simpa [HDXLinear.new] using h

/-- C10 witness: two equal-priority (value 5) entries with stamps 0 and 2;
the earlier-inserted one is removed first. -/
theorem priority_equal_priority_fifo_witness :
    ((⟨PRIORITY_QUEUE, stampCmp, [(7, 0), (5, 1)], 2, 0⟩ :
        HDXLinear (Nat × Nat)).add (5, 2)).items =
      ([(7, 0), (5, 1)] : List (Nat × Nat)).takeWhile (stampCmp (5, 2)) ++
        (5, 2) :: ([(7, 0), (5, 1)] : List (Nat × Nat)).dropWhile
          (stampCmp (5, 2)) ∧
    ((⟨PRIORITY_QUEUE, stampCmp, [(7, 0), (5, 2), (5, 1)], 3, 0⟩ :
        HDXLinear (Nat × Nat)).remove 0).1 =
      ([(7, 0), (5, 2), (5, 1)] : List (Nat × Nat)).getLast? ∧
    (buildPQ [(5, 0), (3, 1), (5, 2)]).removalSequence.filter
        (fun x => x.1 == 5) =
      ([(5, 0), (3, 1), (5, 2)] : List (Nat × Nat)).filter
        (fun x => x.1 == 5) :=
  ⟨(priority_equal_priority_fifo.1 _ (5, 2) rfl rfl).1,
   priority_equal_priority_fifo.2.1 _ 0 rfl,
   priority_equal_priority_fifo.2.2 [(5, 0), (3, 1), (5, 2)] 5⟩

/-! ## Claim theorems: scheduler error handling and continuations -/

theorem lookupAction_eq_none {V : Type} (lbl : String) :
    ∀ (L : List (ActionEntry V)), (∀ a ∈ L, lbl ≠ a.label) →
      lookupAction lbl L = none
  | [], _ => rfl
  | a :: rest, h => by
    unfold lookupAction
    rw [if_neg (h a (List.mem_cons_self a rest))]
    exact lookupAction_eq_none lbl rest fun b hb =>
      h b (List.mem_cons_of_mem a hb)

/-- C5: whenever the scheduler executes one action and `nextAction` matches
no action of the table, it forces the status to `Paused`, reports the
internal error (the `alert`), and performs no action work in that step: the
missing `return` makes the JS throw on the null `currentAction` right after
reporting, so the step aborts with the state otherwise untouched (the
`.error` result).  The same happens when the continuation body `nextStep`
reaches its action step in that situation. -/
theorem unknown_action_forces_paused {V : Type} [Inhabited V] [Zero V]
    (p : AVParams V) (fuel : Nat) (s : Sim V)
    (h : ∀ a ∈ (avActions : List (ActionEntry V)), s.nextAction ≠ a.label) :
    oneAction p s =
      .error { s with status := HdxState.AV_PAUSED, internalError := true } ∧
    (s.status ≠ HdxState.AV_PAUSED → s.delay ≠ 0 → s.delay ≠ -1 →
      s.traceActions = true →
      nextStep p fuel s =
        .error { s with
                   status := HdxState.AV_PAUSED,
                   internalError := true }) := by
  have hone : oneAction p s =
      .error { s with status := HdxState.AV_PAUSED, internalError := true } := by
    unfold oneAction
    rw [lookupAction_eq_none s.nextAction avActions h]
  refine ⟨hone, fun hst hd0 hd1 htr => ?_⟩
  simp only [nextStep, if_neg hst, if_neg hd0, if_neg hd1, htr, if_true, hone]

/-- C5 witness: a concrete mid-run state whose `nextAction` is
`"invalidLabel"`. -/
theorem unknown_action_forces_paused_witness :
    oneAction egParams c5State =
      .error { c5State with
                 status := HdxState.AV_PAUSED,
                 internalError := true } ∧
    nextStep egParams 5 c5State =
      .error { c5State with
                 status := HdxState.AV_PAUSED,
                 internalError := true } := by
  have h := unknown_action_forces_paused egParams 5 c5State (by decide)
  exact ⟨h.1, h.2 (by decide) (by decide) (by decide) (by decide)⟩

/-- C9 counterexample: the continuation guard tests only `paused()`
(`status == AV_PAUSED`), not "not Running".  In the `Complete` status — to
which the claim explicitly extends — a previously scheduled continuation
that fires with an action still pending is not stopped by the guard: it
executes the pending `cleanup` action and mutates the algorithm state
(`nextAction` moves to `"DONE"`, `iterationDone` flips). -/
theorem continuation_after_complete_performs_work :
    c9State.status ≠ HdxState.AV_RUNNING ∧
    c9State.status ≠ HdxState.AV_PAUSED ∧
    c9State.nextAction = "cleanup" ∧
    nextStep egParams 5 c9State =
      .ok { c9State with nextAction := "DONE", iterationDone := true } :=
  ⟨by decide, by decide, rfl, rfl⟩

/-- C9 amended: the revocation guarantee holds exactly for the `Paused`
status — once the Controller is `Paused`, every previously scheduled timed
continuation that fires returns immediately, executing no action and
modifying no state; for other non-`Running` statuses (such as `Complete`)
the guard does not apply. -/
theorem paused_continuation_noop {V : Type} [Inhabited V] [Zero V]
    (p : AVParams V) (fuel : Nat) (s : Sim V)
    (h : s.status = HdxState.AV_PAUSED) :
    nextStep p fuel s = .ok s := by
  unfold nextStep
  rw [if_pos h]

/-- C9 amended witness: the paused version of the same pending-action
state. -/
theorem paused_continuation_noop_witness :
    nextStep egParams 5 c9PausedState = .ok c9PausedState :=
  paused_continuation_noop egParams 5 c9PausedState rfl

/-! ## Claim theorem: the Dijkstra scenario -/

/-- C7: on the 4-vertex cycle 0-1, 1-2, 2-3, 3-0 with all edges of length 1,
Dijkstra's algorithm run from vertex 0 (to end vertex 2) completes, and the
spanning-tree record for vertex 2 — written when the vertex is added —
carries value 2, for every order in which each vertex's incident edges are
iterated. -/
theorem dijkstra_cycle4_distance_two :
    ∀ b0 b1 b2 b3 : Bool,
      (dijkstraCycle4Run b0 b1 b2 b3).map
          (fun s => (s.nextAction, s.stoppedBecause,
            (s.treeEdges.filter (fun e => e.vIndex == 2)).map LDVEntry.val)) =
        some ("DONE", "FoundPath", [2]) := by
  decide

/-! ## Stepping infrastructure lemmas -/

theorem stepsN_add {V : Type} [Inhabited V] [Zero V] (p : AVParams V) :
    ∀ (m n : Nat) (s : Sim V),
      stepsN p (m + n) s =
        match stepsN p m s with
        | .error e => .error e
        | .ok t => stepsN p n t
  | 0, n, s => by simp [stepsN, Nat.zero_add]
  | m + 1, n, s => by
    have hidx : m + 1 + n = (m + n) + 1 := by omega
    rw [hidx]
    show (match oneAction p s with
          | Except.error e => Except.error e
          | Except.ok t => stepsN p (m + n) t) =
        match (match oneAction p s with
               | Except.error e => (Except.error e : Except (Sim V) (Sim V))
               | Except.ok t => stepsN p m t) with
        | Except.error e => Except.error e
        | Except.ok t => stepsN p n t
    cases oneAction p s with
    | error e => rfl
    | ok t => exact stepsN_add p m n t

theorem lookupAction_mem {V : Type} (lbl : String) :
    ∀ (L : List (ActionEntry V)) (a : ActionEntry V),
      lookupAction lbl L = some a → a ∈ L ∧ lbl = a.label
  | [], a, h => by simp [lookupAction] at h
  | b :: rest, a, h => by
    unfold lookupAction at h
    by_cases hb : lbl = b.label
    · rw [if_pos hb] at h
      cases h
      exact ⟨List.mem_cons_self _ _, hb⟩
    · rw [if_neg hb] at h
      have := lookupAction_mem lbl rest a h
      exact ⟨List.mem_cons_of_mem _ this.1, this.2⟩

/-- `oneAction` through a successful lookup and a non-throwing action
body. -/
theorem oneAction_ok {V : Type} [Inhabited V] [Zero V] {p : AVParams V}
    {s s' : Sim V} {e : ActionEntry V}
    (hl : lookupAction s.nextAction avActions = some e)
    (hc : e.code p s = some s') : oneAction p s = .ok s' := by
  unfold oneAction
  rw [hl]
  show (match e.code p s with
        | none => Except.error s
        | some s' => Except.ok s') = Except.ok s'
  rw [hc]

/-! ## The neighbor loop -/

theorem neighborStep_frame {V : Type} [Inhabited V] (p : AVParams V)
    (v : LDVEntry V) (n : Neighbor) (s : Sim V) (nl : List Neighbor)
    (nn : Option Neighbor) (na : String) :
    neighborStep p v n
        { s with
            neighborsToLoop := nl,
            nextNeighbor := nn,
            nextAction := na } =
      { neighborStep p v n s with
          neighborsToLoop := nl,
          nextNeighbor := nn,
          nextAction := na } := by
  cases s
  simp only [neighborStep, getB]
  split_ifs <;> rfl

theorem neighborStep_addedV {V : Type} [Inhabited V] (p : AVParams V)
    (v : LDVEntry V) (n : Neighbor) (s : Sim V) :
    (neighborStep p v n s).addedV = s.addedV := by
  cases s
  simp only [neighborStep, getB]
  split_ifs <;> rfl

theorem neighborStep_visiting {V : Type} [Inhabited V] (p : AVParams V)
    (v : LDVEntry V) (n : Neighbor) (s : Sim V) :
    (neighborStep p v n s).visiting = s.visiting := by
  cases s
  simp only [neighborStep, getB]
  split_ifs <;> rfl

theorem neighborStep_stoppingCondition {V : Type} [Inhabited V]
    (p : AVParams V) (v : LDVEntry V) (n : Neighbor) (s : Sim V) :
    (neighborStep p v n s).stoppingCondition = s.stoppingCondition := by
  cases s
  simp only [neighborStep, getB]
  split_ifs <;> rfl

theorem neighborStep_neighborsToLoop {V : Type} [Inhabited V]
    (p : AVParams V) (v : LDVEntry V) (n : Neighbor) (s : Sim V) :
    (neighborStep p v n s).neighborsToLoop = s.neighborsToLoop := by
  cases s
  simp only [neighborStep, getB]
  split_ifs <;> rfl

theorem processNeighbors_frame {V : Type} [Inhabited V] (p : AVParams V)
    (v : LDVEntry V) :
    ∀ (R : List Neighbor) (s : Sim V) (nl : List Neighbor)
      (nn : Option Neighbor) (na : String),
      processNeighbors p v R
          { s with
              neighborsToLoop := nl,
              nextNeighbor := nn,
              nextAction := na } =
        { processNeighbors p v R s with
            neighborsToLoop := nl,
            nextNeighbor := nn,
            nextAction := na }
  | [], s, nl, nn, na => rfl
  | n :: rest, s, nl, nn, na => by
    show processNeighbors p v rest _ = _
    rw [neighborStep_frame]
    exact processNeighbors_frame p v rest (neighborStep p v n s) nl nn na

theorem stepsN_one {V : Type} [Inhabited V] [Zero V] {p : AVParams V}
    {s t : Sim V} (h : oneAction p s = .ok t) : stepsN p 1 s = .ok t := by
  show (match oneAction p s with
        | Except.error e => Except.error e
        | Except.ok u => stepsN p 0 u) = Except.ok t
  rw [h]
  rfl

theorem stepsN_two {V : Type} [Inhabited V] [Zero V] {p : AVParams V}
    {s t u : Sim V} (h1 : oneAction p s = .ok t)
    (h2 : oneAction p t = .ok u) : stepsN p 2 s = .ok u := by
  have h21 : (2 : Nat) = 1 + 1 := rfl
  rw [h21, stepsN_add p 1 1 s, stepsN_one h1]
  exact stepsN_one h2

theorem lookup_checkNeighborsLoopIf {V : Type} [Inhabited V] [Zero V] :
    lookupAction "checkNeighborsLoopIf" (avActions : List (ActionEntry V)) =
      some ⟨"checkNeighborsLoopIf", checkNeighborsLoopIfCode⟩ := rfl

theorem lookup_checkNeighborsLoopIfTrue {V : Type} [Inhabited V] [Zero V] :
    lookupAction "checkNeighborsLoopIfTrue"
        (avActions : List (ActionEntry V)) =
      some ⟨"checkNeighborsLoopIfTrue", checkNeighborsLoopIfTrueCode⟩ := rfl

theorem lookup_checkNeighborsLoopIfFalse {V : Type} [Inhabited V] [Zero V] :
    lookupAction "checkNeighborsLoopIfFalse"
        (avActions : List (ActionEntry V)) =
      some ⟨"checkNeighborsLoopIfFalse", checkNeighborsLoopIfFalseCode⟩ := rfl

/-- The `checkNeighborsLoopIfTrue` body on a state whose pending-neighbor
bookkeeping fields have just been set by the pop: it performs exactly the
already-added branch of `neighborStep`. -/
theorem ifTrue_step_eq {V : Type} [Inhabited V] (p : AVParams V)
    (v : LDVEntry V) (n : Neighbor) (s : Sim V) (nl : List Neighbor)
    (na : String) (hadded : getB s.addedV n.toV = true) :
    checkNeighborsLoopIfTrueCode p
        { s with
            neighborsToLoop := nl,
            nextNeighbor := some n,
            nextAction := na } =
      some { neighborStep p v n s with
              neighborsToLoop := nl,
              nextNeighbor := some n,
              nextAction :=
                if 0 < nl.length then "checkNeighborsLoopIf"
                else loopTopLabel s.stoppingCondition } := by
  cases s
  simp only [getB] at hadded
  simp only [checkNeighborsLoopIfTrueCode, neighborStep, getB, hadded,
    if_true]
  split_ifs <;> rfl

/-- The `checkNeighborsLoopIfFalse` body likewise performs exactly the
not-yet-added branch of `neighborStep`. -/
theorem ifFalse_step_eq {V : Type} [Inhabited V] (p : AVParams V)
    (v : LDVEntry V) (n : Neighbor) (s : Sim V) (nl : List Neighbor)
    (na : String) (hadded : getB s.addedV n.toV = false)
    (hv : s.visiting = some v) :
    checkNeighborsLoopIfFalseCode p
        { s with
            neighborsToLoop := nl,
            nextNeighbor := some n,
            nextAction := na } =
      some { neighborStep p v n s with
              neighborsToLoop := nl,
              nextNeighbor := some n,
              nextAction :=
                if 0 < nl.length then "checkNeighborsLoopIf"
                else loopTopLabel s.stoppingCondition } := by
  cases s
  simp only [getB] at hadded
  simp only at hv
  simp only [checkNeighborsLoopIfFalseCode, neighborStep, getB, hadded,
    Bool.false_eq_true, if_neg, hv, not_false_iff]
  split_ifs <;> rfl

/-- One pass of the neighbor loop (two actions): pop the record at the back
of the pending list, branch on whether its vertex is already added, perform
the corresponding `neighborStep`, and either go back to the loop check or
exit to the top of the appropriate main loop. -/
theorem neighborPass_run {V : Type} [Inhabited V] [Zero V] (p : AVParams V)
    (v : LDVEntry V) (r : Neighbor) (prev : List Neighbor) (s : Sim V)
    (hl : s.nextAction = "checkNeighborsLoopIf") (hv : s.visiting = some v)
    (hnl : s.neighborsToLoop = prev ++ [r]) :
    stepsN p 2 s =
      .ok { neighborStep p v r s with
              neighborsToLoop := prev,
              nextNeighbor := some r,
              nextAction :=
                if 0 < prev.length then "checkNeighborsLoopIf"
                else loopTopLabel s.stoppingCondition } := by
  have hpop : s.neighborsToLoop.getLast? = some r := by
    rw [hnl, List.getLast?_concat]
  have hdrop : s.neighborsToLoop.dropLast = prev := by
    rw [hnl, List.dropLast_concat]
  by_cases hadd : getB s.addedV r.toV = true
  · have hstep1 : oneAction p s =
        .ok { s with
                neighborsToLoop := prev,
                nextNeighbor := some r,
                nextAction := "checkNeighborsLoopIfTrue" } := by
      apply oneAction_ok (e := ⟨"checkNeighborsLoopIf",
        checkNeighborsLoopIfCode⟩)
      · rw [hl]
        exact lookup_checkNeighborsLoopIf
      · simp only [checkNeighborsLoopIfCode, hpop, hdrop, hadd, if_true]
    have hstep2 : oneAction p
        { s with
            neighborsToLoop := prev,
            nextNeighbor := some r,
            nextAction := "checkNeighborsLoopIfTrue" } =
        .ok { neighborStep p v r s with
                neighborsToLoop := prev,
                nextNeighbor := some r,
                nextAction :=
                  if 0 < prev.length then "checkNeighborsLoopIf"
                  else loopTopLabel s.stoppingCondition } := by
      apply oneAction_ok (e := ⟨"checkNeighborsLoopIfTrue",
        checkNeighborsLoopIfTrueCode⟩)
      · exact lookup_checkNeighborsLoopIfTrue
      · exact ifTrue_step_eq p v r s prev _ hadd
    exact stepsN_two hstep1 hstep2
  · have hadd' : getB s.addedV r.toV = false := Bool.eq_false_iff.mpr hadd
    have hstep1 : oneAction p s =
        .ok { s with
                neighborsToLoop := prev,
                nextNeighbor := some r,
                nextAction := "checkNeighborsLoopIfFalse" } := by
      apply oneAction_ok (e := ⟨"checkNeighborsLoopIf",
        checkNeighborsLoopIfCode⟩)
      · rw [hl]
        exact lookup_checkNeighborsLoopIf
      · simp only [checkNeighborsLoopIfCode, hpop, hdrop, hadd',
          Bool.false_eq_true, if_neg, not_false_iff]
    have hstep2 : oneAction p
        { s with
            neighborsToLoop := prev,
            nextNeighbor := some r,
            nextAction := "checkNeighborsLoopIfFalse" } =
        .ok { neighborStep p v r s with
                neighborsToLoop := prev,
                nextNeighbor := some r,
                nextAction :=
                  if 0 < prev.length then "checkNeighborsLoopIf"
                  else loopTopLabel s.stoppingCondition } := by
      apply oneAction_ok (e := ⟨"checkNeighborsLoopIfFalse",
        checkNeighborsLoopIfFalseCode⟩)
      · exact lookup_checkNeighborsLoopIfFalse
      · exact ifFalse_step_eq p v r s prev _ hadd' hv
    exact stepsN_two hstep1 hstep2

/-- Running the whole neighbor loop: from a state at `checkNeighborsLoopIf`
whose pending list holds the records of `R` in pop order (`R`'s head at the
back, popped first), the loop takes two actions per record, applies
`neighborStep` to each record in order, drains the pending list, leaves the
last-processed record in `nextNeighbor`, and continues at the top of the
appropriate main loop. -/
theorem neighborLoop_run {V : Type} [Inhabited V] [Zero V] (p : AVParams V)
    (v : LDVEntry V) :
    ∀ (R : List Neighbor) (s : Sim V), R ≠ [] →
      s.nextAction = "checkNeighborsLoopIf" →
      s.visiting = some v →
      s.neighborsToLoop = R.reverse →
      stepsN p (2 * R.length) s =
        .ok { processNeighbors p v R s with
                neighborsToLoop := [],
                nextNeighbor := R.getLast?,
                nextAction := loopTopLabel s.stoppingCondition } := by
  intro R
  induction R with
  | nil => intro s h; cases h rfl
  | cons r rest ih =>
    intro s _ hl hv hnl
    have hnl' : s.neighborsToLoop = rest.reverse ++ [r] := by
      rw [hnl, List.reverse_cons]
    have hpass := neighborPass_run p v r rest.reverse s hl hv hnl'
    rcases hrest : rest with _ | ⟨x, xs⟩
    · -- single pass, loop exits
      subst hrest
      simp only [List.reverse_nil, List.length_nil, Nat.lt_irrefl,
        if_neg, Nat.not_lt, Nat.le_refl] at hpass
      show stepsN p (2 * 1) s = _
      rw [show 2 * 1 = 2 from rfl, hpass]
      rfl
    · -- pass, then the loop continues on `rest`
      subst hrest
      have hpos : 0 < (x :: xs).reverse.length := by simp
      rw [if_pos hpos] at hpass
      have hsplit : 2 * (x :: xs ).length + 2 = 2 + 2 * (x :: xs).length := by
        omega
      show stepsN p (2 * ((x :: xs).length + 1)) s = _
      rw [show 2 * ((x :: xs).length + 1) = 2 * (x :: xs).length + 2 by omega,
        hsplit, stepsN_add p 2 (2 * (x :: xs).length) s]
      simp only [hpass]
      have ihres := ih
        { neighborStep p v r s with
            neighborsToLoop := (x :: xs).reverse,
            nextNeighbor := some r,
            nextAction := "checkNeighborsLoopIf" }
        (by simp) rfl
        (by rw [neighborStep_visiting]; exact hv) rfl
      rw [ihres, processNeighbors_frame]
      have hsc : (neighborStep p v r s).stoppingCondition =
          s.stoppingCondition := neighborStep_stoppingCondition p v r s
      show Except.ok _ = Except.ok _
      rw [hsc]
      rfl

/-! ## Per-action characterizations of the remaining table entries -/

theorem lookup_START {V : Type} [Inhabited V] [Zero V] :
    lookupAction "START" (avActions : List (ActionEntry V)) =
      some ⟨"START", startCode⟩ := rfl

theorem lookup_checkEndAdded {V : Type} [Inhabited V] [Zero V] :
    lookupAction "checkEndAdded" (avActions : List (ActionEntry V)) =
      some ⟨"checkEndAdded", checkEndAddedCode⟩ := rfl

theorem lookup_checkLDVEmpty {V : Type} [Inhabited V] [Zero V] :
    lookupAction "checkLDVEmpty" (avActions : List (ActionEntry V)) =
      some ⟨"checkLDVEmpty", checkLDVEmptyCode⟩ := rfl

theorem lookup_LDVEmpty {V : Type} [Inhabited V] [Zero V] :
    lookupAction "LDVEmpty" (avActions : List (ActionEntry V)) =
      some ⟨"LDVEmpty", LDVEmptyCode⟩ := rfl

theorem lookup_getPlaceFromLDV {V : Type} [Inhabited V] [Zero V] :
    lookupAction "getPlaceFromLDV" (avActions : List (ActionEntry V)) =
      some ⟨"getPlaceFromLDV", getPlaceFromLDVCode⟩ := rfl

theorem lookup_checkAdded {V : Type} [Inhabited V] [Zero V] :
    lookupAction "checkAdded" (avActions : List (ActionEntry V)) =
      some ⟨"checkAdded", checkAddedCode⟩ := rfl

theorem lookup_wasAdded {V : Type} [Inhabited V] [Zero V] :
    lookupAction "wasAdded" (avActions : List (ActionEntry V)) =
      some ⟨"wasAdded", wasAddedCode⟩ := rfl

theorem lookup_wasNotAdded {V : Type} [Inhabited V] [Zero V] :
    lookupAction "wasNotAdded" (avActions : List (ActionEntry V)) =
      some ⟨"wasNotAdded", wasNotAddedCode⟩ := rfl

theorem lookup_checkNeighborsLoopTop {V : Type} [Inhabited V] [Zero V] :
    lookupAction "checkNeighborsLoopTop" (avActions : List (ActionEntry V)) =
      some ⟨"checkNeighborsLoopTop", checkNeighborsLoopTopCode⟩ := rfl

theorem lookup_cleanup {V : Type} [Inhabited V] [Zero V] :
    lookupAction "cleanup" (avActions : List (ActionEntry V)) =
      some ⟨"cleanup", cleanupCode⟩ := rfl

theorem checkAdded_run {V : Type} [Inhabited V] [Zero V] (p : AVParams V)
    (s : Sim V) (v : LDVEntry V) (hl : s.nextAction = "checkAdded")
    (hv : s.visiting = some v) :
    oneAction p s =
      .ok { s with
              nextAction :=
                if getB s.addedV v.vIndex then "wasAdded"
                else "wasNotAdded" } := by
  apply oneAction_ok (e := ⟨"checkAdded", checkAddedCode⟩)
  · rw [hl]
    exact lookup_checkAdded
  · simp only [checkAddedCode, hv]

theorem wasAdded_run {V : Type} [Inhabited V] [Zero V] (p : AVParams V)
    (s : Sim V) (v : LDVEntry V) (hl : s.nextAction = "wasAdded")
    (hv : s.visiting = some v) :
    oneAction p s =
      .ok { s with
              numEDiscardedOnRemoval := s.numEDiscardedOnRemoval + 1,
              nextAction := loopTopLabel s.stoppingCondition } := by
  apply oneAction_ok (e := ⟨"wasAdded", wasAddedCode⟩)
  · rw [hl]
    exact lookup_wasAdded
  · simp only [wasAddedCode, hv]

theorem wasNotAdded_run {V : Type} [Inhabited V] [Zero V] (p : AVParams V)
    (s : Sim V) (v : LDVEntry V) (hl : s.nextAction = "wasNotAdded")
    (hv : s.visiting = some v) :
    oneAction p s = .ok (addToTreeState s v) := by
  apply oneAction_ok (e := ⟨"wasNotAdded", wasNotAddedCode⟩)
  · rw [hl]
    exact lookup_wasNotAdded
  · simp only [wasNotAddedCode, hv, addToTreeState]

theorem checkNeighborsLoopTop_run {V : Type} [Inhabited V] [Zero V]
    (p : AVParams V) (s : Sim V) (v : LDVEntry V)
    (hl : s.nextAction = "checkNeighborsLoopTop")
    (hv : s.visiting = some v) :
    oneAction p s =
      .ok { s with
              neighborsToLoop := s.neighborsToLoop ++
                buildNeighbors p.graph v.vIndex v.connection,
              nextAction :=
                if 0 < (s.neighborsToLoop ++
                    buildNeighbors p.graph v.vIndex v.connection).length then
                  "checkNeighborsLoopIf"
                else loopTopLabel s.stoppingCondition } := by
  apply oneAction_ok (e := ⟨"checkNeighborsLoopTop",
    checkNeighborsLoopTopCode⟩)
  · rw [hl]
    exact lookup_checkNeighborsLoopTop
  · simp only [checkNeighborsLoopTopCode, hv]

theorem checkEndAdded_run {V : Type} [Inhabited V] [Zero V] (p : AVParams V)
    (s : Sim V) (hl : s.nextAction = "checkEndAdded") :
    oneAction p s =
      .ok (if getB s.addedV s.endingVertex then
            { s with
                stoppedBecause := "FoundPath",
                nextAction := "cleanup",
                iterationDone := true }
          else
            { s with
                nextAction := "checkLDVEmpty",
                iterationDone := true }) := by
  apply oneAction_ok (e := ⟨"checkEndAdded", checkEndAddedCode⟩)
  · rw [hl]
    exact lookup_checkEndAdded
  · simp only [checkEndAddedCode]

theorem checkLDVEmpty_run {V : Type} [Inhabited V] [Zero V] (p : AVParams V)
    (s : Sim V) (hl : s.nextAction = "checkLDVEmpty") :
    oneAction p s =
      .ok (if s.ldv.isEmpty then { s with nextAction := "LDVEmpty" }
          else { s with nextAction := "getPlaceFromLDV" }) := by
  apply oneAction_ok (e := ⟨"checkLDVEmpty", checkLDVEmptyCode⟩)
  · rw [hl]
    exact lookup_checkLDVEmpty
  · simp only [checkLDVEmptyCode]

theorem LDVEmpty_run {V : Type} [Inhabited V] [Zero V] (p : AVParams V)
    (s : Sim V) (hl : s.nextAction = "LDVEmpty") :
    oneAction p s =
      .ok { s with
              stoppedBecause := "SearchFailed",
              nextAction := "cleanup" } := by
  apply oneAction_ok (e := ⟨"LDVEmpty", LDVEmptyCode⟩)
  · rw [hl]
    exact lookup_LDVEmpty
  · simp only [LDVEmptyCode]

theorem getPlaceFromLDV_run {V : Type} [Inhabited V] [Zero V]
    (p : AVParams V) (s : Sim V) (e : LDVEntry V)
    (ldv' : HDXLinear (LDVEntry V))
    (hl : s.nextAction = "getPlaceFromLDV")
    (hrem : s.ldv.remove (p.randSeq s.randCount % max 1 s.ldv.items.length) =
      (some e, ldv')) :
    oneAction p s =
      .ok { s with
              ldv := ldv',
              visiting := some e,
              randCount := s.randCount + 1,
              nextAction := "checkAdded" } := by
  apply oneAction_ok (e := ⟨"getPlaceFromLDV", getPlaceFromLDVCode⟩)
  · rw [hl]
    exact lookup_getPlaceFromLDV
  · simp only [getPlaceFromLDVCode, hrem]

theorem cleanup_run {V : Type} [Inhabited V] [Zero V] (p : AVParams V)
    (s : Sim V) (hl : s.nextAction = "cleanup") :
    oneAction p s =
      .ok { s with nextAction := "DONE", iterationDone := true } := by
  apply oneAction_ok (e := ⟨"cleanup", cleanupCode⟩)
  · rw [hl]
    exact lookup_cleanup
  · simp only [cleanupCode]

/-! ## Claim theorem: the main loop body -/

/-- C2: in every iteration of the traversal/spanning-tree main loop, under
any stopping condition: (i) the entry removed from the container has its
vertex checked against the added bitmap — already added moves to the
discard action, otherwise to the add action; (ii) `wasAdded` discards the
entry "on removal" (counted; nothing else in the algorithm state changes)
and loops; (iii) `wasNotAdded` marks the vertex added and records the entry
in the spanning tree / path tables (`addToTreeState`), then heads into the
neighbor loop; (iv) `checkNeighborsLoopTop` queues exactly the incident
edges different from the edge just used (with their far vertices); (v) the
neighbor loop applies `neighborStep` to each queued record in order —
marking the edge "discarded on discovery" when its far vertex is already
added, and otherwise marking the edge (and, if new, the vertex) discovered
and inserting a new entry whose value is `nextValue` (`valForLDVEntry`)
applied to the current entry and that edge — then returns to the top of the
appropriate loop. -/
theorem traversal_loop_body_spec {V : Type} [Inhabited V] [Zero V]
    (p : AVParams V) :
    (∀ (s : Sim V) (v : LDVEntry V), s.nextAction = "checkAdded" →
      s.visiting = some v →
      oneAction p s =
        .ok { s with
                nextAction :=
                  if getB s.addedV v.vIndex then "wasAdded"
                  else "wasNotAdded" }) ∧
    (∀ (s : Sim V) (v : LDVEntry V), s.nextAction = "wasAdded" →
      s.visiting = some v →
      oneAction p s =
        .ok { s with
                numEDiscardedOnRemoval := s.numEDiscardedOnRemoval + 1,
                nextAction := loopTopLabel s.stoppingCondition }) ∧
    (∀ (s : Sim V) (v : LDVEntry V), s.nextAction = "wasNotAdded" →
      s.visiting = some v →
      oneAction p s = .ok (addToTreeState s v)) ∧
    (∀ (s : Sim V) (v : LDVEntry V),
      s.nextAction = "checkNeighborsLoopTop" → s.visiting = some v →
      oneAction p s =
        .ok { s with
                neighborsToLoop := s.neighborsToLoop ++
                  buildNeighbors p.graph v.vIndex v.connection,
                nextAction :=
                  if 0 < (s.neighborsToLoop ++
                      buildNeighbors p.graph v.vIndex v.connection).length
                  then "checkNeighborsLoopIf"
                  else loopTopLabel s.stoppingCondition }) ∧
    (∀ (R : List Neighbor) (s : Sim V) (v : LDVEntry V), R ≠ [] →
      s.nextAction = "checkNeighborsLoopIf" → s.visiting = some v →
      s.neighborsToLoop = R.reverse →
      stepsN p (2 * R.length) s =
        .ok { processNeighbors p v R s with
                neighborsToLoop := [],
                nextNeighbor := R.getLast?,
                nextAction := loopTopLabel s.stoppingCondition }) := by
  refine ⟨?_, ?_, ?_, ?_, ?_⟩
  · intro s v hl hv
    exact checkAdded_run p s v hl hv
  · intro s v hl hv
    exact wasAdded_run p s v hl hv
  · intro s v hl hv
    exact wasNotAdded_run p s v hl hv
  · intro s v hl hv
    exact checkNeighborsLoopTop_run p s v hl hv
  · intro R s v hR hl hv hnl
    exact neighborLoop_run p v R s hR hl hv hnl

/-- C2 witness: the five conjuncts applied to concrete mid-run states of the
Dijkstra example (the checked vertex already added in (i)-(ii), a fresh
vertex in (iii)-(v)). -/
theorem traversal_loop_body_spec_witness :
    (oneAction egParams { c2State with nextAction := "checkAdded" } =
      .ok { c2State with nextAction := "wasNotAdded" }) ∧
    (oneAction egParams { c2State with nextAction := "wasAdded" } =
      .ok { c2State with
              numEDiscardedOnRemoval := 1,
              nextAction := "checkEndAdded" }) ∧
    (oneAction egParams { c2State with nextAction := "wasNotAdded" } =
      .ok (addToTreeState { c2State with nextAction := "wasNotAdded" }
        c2Entry)) ∧
    (oneAction egParams { c2State with nextAction := "checkNeighborsLoopTop" } =
      .ok { c2State with
              neighborsToLoop := [⟨2, 1⟩],
              nextAction := "checkNeighborsLoopIf" }) ∧
    (stepsN egParams 2
        { c2State with
            nextAction := "checkNeighborsLoopIf",
            neighborsToLoop := [⟨2, 1⟩] } =
      .ok { processNeighbors egParams c2Entry [⟨2, 1⟩]
              { c2State with
                  nextAction := "checkNeighborsLoopIf",
                  neighborsToLoop := [⟨2, 1⟩] } with
              neighborsToLoop := [],
              nextNeighbor := some ⟨2, 1⟩,
              nextAction := "checkEndAdded" }) := by
  have h := traversal_loop_body_spec (V := Int) egParams
  refine ⟨?_, ?_, ?_, ?_, ?_⟩
  · have h1 := h.1 { c2State with nextAction := "checkAdded" } c2Entry rfl rfl
    rw [h1]
    rfl
  · have h2 := h.2.1 { c2State with nextAction := "wasAdded" } c2Entry rfl rfl
    rw [h2]
    rfl
  · exact h.2.2.1 { c2State with nextAction := "wasNotAdded" } c2Entry rfl rfl
  · have h4 := h.2.2.2.1
      { c2State with nextAction := "checkNeighborsLoopTop" } c2Entry rfl rfl
    rw [h4]
    rfl
  · have h5 := h.2.2.2.2 [⟨2, 1⟩]
      { c2State with
          nextAction := "checkNeighborsLoopIf",
          neighborsToLoop := [⟨2, 1⟩] }
      c2Entry (by simp) rfl rfl rfl
    exact h5

/-! ## Bitmap monotonicity -/

theorem getB_set_true_mono :
    ∀ (l : List Bool) (i j : Nat), getB l j = true →
      getB (l.set i true) j = true
  | [], _, j, h => by simp [getB] at h
  | b :: bs, 0, 0, h => by simp [getB, List.set]
  | b :: bs, 0, j + 1, h => by simpa [getB, List.set] using h
  | b :: bs, i + 1, 0, h => by simpa [getB, List.set] using h
  | b :: bs, i + 1, j + 1, h => by
    simp only [getB, List.set, List.getD_cons_succ] at h ⊢
    exact getB_set_true_mono bs i j h

/-- The three per-run boolean arrays are untouched, or flipped to true at
one index, by each action other than `"START"`; case-by-case field
computations. -/
theorem checkAllComponentsDone_arrays {V : Type} [Inhabited V]
    (p : AVParams V) {s s' : Sim V}
    (hc : checkAllComponentsDoneCode p s = some s') :
    s'.addedV = s.addedV ∧ s'.discoveredV = s.discoveredV ∧
      s'.discoveredE = s.discoveredE := by
  simp only [checkAllComponentsDoneCode, Option.some.injEq] at hc
  subst hc
  split_ifs <;> exact ⟨rfl, rfl, rfl⟩

theorem checkComponentDone_arrays {V : Type} [Inhabited V]
    (p : AVParams V) {s s' : Sim V}
    (hc : checkComponentDoneCode p s = some s') :
    s'.addedV = s.addedV ∧ s'.discoveredV = s.discoveredV ∧
      s'.discoveredE = s.discoveredE := by
  simp only [checkComponentDoneCode, Option.some.injEq] at hc
  subst hc
  split_ifs <;> exact ⟨rfl, rfl, rfl⟩

theorem checkEndAdded_arrays {V : Type} [Inhabited V]
    (p : AVParams V) {s s' : Sim V}
    (hc : checkEndAddedCode p s = some s') :
    s'.addedV = s.addedV ∧ s'.discoveredV = s.discoveredV ∧
      s'.discoveredE = s.discoveredE := by
  simp only [checkEndAddedCode, Option.some.injEq] at hc
  subst hc
  split_ifs <;> exact ⟨rfl, rfl, rfl⟩

theorem checkLDVEmpty_arrays {V : Type} [Inhabited V]
    (p : AVParams V) {s s' : Sim V}
    (hc : checkLDVEmptyCode p s = some s') :
    s'.addedV = s.addedV ∧ s'.discoveredV = s.discoveredV ∧
      s'.discoveredE = s.discoveredE := by
  simp only [checkLDVEmptyCode, Option.some.injEq] at hc
  subst hc
  split_ifs <;> exact ⟨rfl, rfl, rfl⟩

theorem LDVEmpty_arrays {V : Type} [Inhabited V]
    (p : AVParams V) {s s' : Sim V}
    (hc : LDVEmptyCode p s = some s') :
    s'.addedV = s.addedV ∧ s'.discoveredV = s.discoveredV ∧
      s'.discoveredE = s.discoveredE := by
  simp only [LDVEmptyCode, Option.some.injEq] at hc
  subst hc
  exact ⟨rfl, rfl, rfl⟩

theorem getPlaceFromLDV_arrays {V : Type} [Inhabited V]
    (p : AVParams V) {s s' : Sim V}
    (hc : getPlaceFromLDVCode p s = some s') :
    s'.addedV = s.addedV ∧ s'.discoveredV = s.discoveredV ∧
      s'.discoveredE = s.discoveredE := by
  simp only [getPlaceFromLDVCode] at hc
  rcases hrem : s.ldv.remove (p.randSeq s.randCount % max 1 s.ldv.items.length)
    with ⟨o, ldv'⟩
  rw [hrem] at hc
  rcases o with _ | e
  · simp at hc
  · simp only [Option.some.injEq] at hc
    subst hc
    exact ⟨rfl, rfl, rfl⟩

theorem checkAdded_arrays {V : Type} [Inhabited V]
    (p : AVParams V) {s s' : Sim V}
    (hc : checkAddedCode p s = some s') :
    s'.addedV = s.addedV ∧ s'.discoveredV = s.discoveredV ∧
      s'.discoveredE = s.discoveredE := by
  unfold checkAddedCode at hc
  rcases hv : s.visiting with _ | v
  all_goals rw [hv] at hc
  · simp at hc
  · simp only [Option.some.injEq] at hc
    subst hc
    exact ⟨rfl, rfl, rfl⟩

theorem wasAdded_arrays {V : Type} [Inhabited V]
    (p : AVParams V) {s s' : Sim V}
    (hc : wasAddedCode p s = some s') :
    s'.addedV = s.addedV ∧ s'.discoveredV = s.discoveredV ∧
      s'.discoveredE = s.discoveredE := by
  unfold wasAddedCode at hc
  rcases hv : s.visiting with _ | v
  all_goals rw [hv] at hc
  · simp at hc
  · simp only [Option.some.injEq] at hc
    subst hc
    exact ⟨rfl, rfl, rfl⟩

theorem wasNotAdded_arrays {V : Type} [Inhabited V]
    (p : AVParams V) {s s' : Sim V}
    (hc : wasNotAddedCode p s = some s') :
    (∃ i, s'.addedV = s.addedV.set i true) ∧
      s'.discoveredV = s.discoveredV ∧ s'.discoveredE = s.discoveredE := by
  unfold wasNotAddedCode at hc
  rcases hv : s.visiting with _ | v
  all_goals rw [hv] at hc
  · simp at hc
  · simp only [Option.some.injEq] at hc
    subst hc
    refine ⟨⟨v.vIndex, ?_⟩, ?_, ?_⟩ <;>
      (rcases v.connection with _ | c <;> split_ifs <;> rfl)

theorem checkNeighborsLoopTop_arrays {V : Type} [Inhabited V]
    (p : AVParams V) {s s' : Sim V}
    (hc : checkNeighborsLoopTopCode p s = some s') :
    s'.addedV = s.addedV ∧ s'.discoveredV = s.discoveredV ∧
      s'.discoveredE = s.discoveredE := by
  unfold checkNeighborsLoopTopCode at hc
  rcases hv : s.visiting with _ | v
  all_goals rw [hv] at hc
  · simp at hc
  · simp only [Option.some.injEq] at hc
    subst hc
    exact ⟨rfl, rfl, rfl⟩

theorem checkNeighborsLoopIf_arrays {V : Type} [Inhabited V]
    (p : AVParams V) {s s' : Sim V}
    (hc : checkNeighborsLoopIfCode p s = some s') :
    s'.addedV = s.addedV ∧ s'.discoveredV = s.discoveredV ∧
      s'.discoveredE = s.discoveredE := by
  unfold checkNeighborsLoopIfCode at hc
  rcases hn : s.neighborsToLoop.getLast? with _ | n
  all_goals rw [hn] at hc
  · simp at hc
  · simp only [Option.some.injEq] at hc
    subst hc
    exact ⟨rfl, rfl, rfl⟩

theorem checkNeighborsLoopIfTrue_arrays {V : Type} [Inhabited V]
    (p : AVParams V) {s s' : Sim V}
    (hc : checkNeighborsLoopIfTrueCode p s = some s') :
    s'.addedV = s.addedV ∧ s'.discoveredV = s.discoveredV ∧
      (s'.discoveredE = s.discoveredE ∨
        ∃ i, s'.discoveredE = s.discoveredE.set i true) := by
  unfold checkNeighborsLoopIfTrueCode at hc
  rcases hn : s.nextNeighbor with _ | n
  all_goals rw [hn] at hc
  · simp at hc
  · simp only [Option.some.injEq] at hc
    subst hc
    refine ⟨?_, ?_, ?_⟩
    · split_ifs <;> rfl
    · split_ifs <;> rfl
    · split_ifs <;> first
        | exact Or.inl rfl
        | exact Or.inr ⟨n.via, rfl⟩

theorem checkNeighborsLoopIfFalse_arrays {V : Type} [Inhabited V]
    (p : AVParams V) {s s' : Sim V}
    (hc : checkNeighborsLoopIfFalseCode p s = some s') :
    s'.addedV = s.addedV ∧
      (s'.discoveredV = s.discoveredV ∨
        ∃ i, s'.discoveredV = s.discoveredV.set i true) ∧
      (∃ i, s'.discoveredE = s.discoveredE.set i true) := by
  unfold checkNeighborsLoopIfFalseCode at hc
  rcases hv : s.visiting with _ | v
  all_goals rw [hv] at hc
  · simp at hc
  · rcases hn : s.nextNeighbor with _ | n
    all_goals rw [hn] at hc
    · simp at hc
    · simp only [Option.some.injEq] at hc
      subst hc
      refine ⟨?_, ?_, ?_⟩
      · split_ifs <;> rfl
      · split_ifs <;> first
          | exact Or.inl rfl
          | exact Or.inr ⟨n.toV, rfl⟩
      · split_ifs <;> exact ⟨n.via, rfl⟩

theorem finalizeComponent_arrays {V : Type} [Inhabited V]
    (p : AVParams V) {s s' : Sim V}
    (hc : finalizeComponentCode p s = some s') :
    s'.addedV = s.addedV ∧ s'.discoveredV = s.discoveredV ∧
      s'.discoveredE = s.discoveredE := by
  simp only [finalizeComponentCode, Option.some.injEq] at hc
  subst hc
  exact ⟨rfl, rfl, rfl⟩

theorem checkAnyUnadded_arrays {V : Type} [Inhabited V]
    (p : AVParams V) {s s' : Sim V}
    (hc : checkAnyUnaddedCode p s = some s') :
    s'.addedV = s.addedV ∧ s'.discoveredV = s.discoveredV ∧
      s'.discoveredE = s.discoveredE := by
  simp only [checkAnyUnaddedCode, Option.some.injEq] at hc
  subst hc
  exact ⟨rfl, rfl, rfl⟩

theorem startNewComponent_arrays {V : Type} [Inhabited V] [Zero V]
    (p : AVParams V) {s s' : Sim V}
    (hc : startNewComponentCode p s = some s') :
    s'.addedV = s.addedV ∧
      (∃ i, s'.discoveredV = s.discoveredV.set i true) ∧
      s'.discoveredE = s.discoveredE := by
  simp only [startNewComponentCode, Option.some.injEq] at hc
  subst hc
  exact ⟨rfl, ⟨_, rfl⟩, rfl⟩

theorem doneToTrue_arrays {V : Type} [Inhabited V]
    (p : AVParams V) {s s' : Sim V}
    (hc : doneToTrueCode p s = some s') :
    s'.addedV = s.addedV ∧ s'.discoveredV = s.discoveredV ∧
      s'.discoveredE = s.discoveredE := by
  simp only [doneToTrueCode, Option.some.injEq] at hc
  subst hc
  exact ⟨rfl, rfl, rfl⟩

theorem cleanup_arrays {V : Type} [Inhabited V]
    (p : AVParams V) {s s' : Sim V}
    (hc : cleanupCode p s = some s') :
    s'.addedV = s.addedV ∧ s'.discoveredV = s.discoveredV ∧
      s'.discoveredE = s.discoveredE := by
  simp only [cleanupCode, Option.some.injEq] at hc
  subst hc
  exact ⟨rfl, rfl, rfl⟩

theorem start_arrays {V : Type} [Inhabited V] [Zero V]
    (p : AVParams V) {s s' : Sim V} (hc : startCode p s = some s') :
    s'.addedV = List.replicate p.graph.numV false ∧
      s'.discoveredV =
        (List.replicate p.graph.numV false).set s.startingVertex true ∧
      s'.discoveredE = List.replicate p.graph.edges.length false := by
  simp only [startCode, Option.some.injEq] at hc
  subst hc
  split_ifs <;> exact ⟨rfl, rfl, rfl⟩

/-- C8: the per-run boolean arrays over vertices (`discoveredV`, `addedV`)
and edges (`discoveredE`) are initialized to all-false by the `"START"`
action — which then immediately flips the start vertex to discovered, the
run's first flip — and every subsequent action of the run only ever flips
entries from false to true: no action resets any entry to false before the
run ends. -/
theorem bitmaps_init_and_monotone {V : Type} [Inhabited V] [Zero V]
    (p : AVParams V) :
    (∀ (s s' : Sim V), s.nextAction = "START" → oneAction p s = .ok s' →
      s'.addedV = List.replicate p.graph.numV false ∧
      s'.discoveredV =
        (List.replicate p.graph.numV false).set s.startingVertex true ∧
      s'.discoveredE = List.replicate p.graph.edges.length false) ∧
    (∀ (s s' : Sim V), s.nextAction ≠ "START" → oneAction p s = .ok s' →
      ∀ i,
        (getB s.addedV i = true → getB s'.addedV i = true) ∧
        (getB s.discoveredV i = true → getB s'.discoveredV i = true) ∧
        (getB s.discoveredE i = true → getB s'.discoveredE i = true)) := by
  constructor
  · intro s s' hl hrun
    unfold oneAction at hrun
    rw [hl, lookup_START] at hrun
    rcases hc : startCode p s with _ | t
    · simp only [hc] at hrun
      cases hrun
    · simp only [hc, Except.ok.injEq] at hrun
      subst hrun
      exact start_arrays p hc
  · intro s s' hne hrun i
    unfold oneAction at hrun
    rcases hlk : lookupAction s.nextAction (avActions : List (ActionEntry V))
      with _ | a
    · rw [hlk] at hrun
      cases hrun
    · rw [hlk] at hrun
      rcases hc : a.code p s with _ | t
      · simp only [hc] at hrun
        cases hrun
      · simp only [hc, Except.ok.injEq] at hrun
        subst hrun
        obtain ⟨hmem, hlbl⟩ := lookupAction_mem s.nextAction avActions a hlk
        simp only [avActions, List.mem_cons, List.not_mem_nil, or_false]
          at hmem
        rcases hmem with rfl | rfl | rfl | rfl | rfl | rfl | rfl | rfl |
          rfl | rfl | rfl | rfl | rfl | rfl | rfl | rfl | rfl | rfl | rfl
        · exact absurd hlbl hne
        · obtain ⟨h1, h2, h3⟩ := checkAllComponentsDone_arrays p hc
          exact ⟨fun h => by rw [h1]; exact h,
            fun h => by rw [h2]; exact h, fun h => by rw [h3]; exact h⟩
        · obtain ⟨h1, h2, h3⟩ := checkComponentDone_arrays p hc
          exact ⟨fun h => by rw [h1]; exact h,
            fun h => by rw [h2]; exact h, fun h => by rw [h3]; exact h⟩
        · obtain ⟨h1, h2, h3⟩ := checkEndAdded_arrays p hc
          exact ⟨fun h => by rw [h1]; exact h,
            fun h => by rw [h2]; exact h, fun h => by rw [h3]; exact h⟩
        · obtain ⟨h1, h2, h3⟩ := checkLDVEmpty_arrays p hc
          exact ⟨fun h => by rw [h1]; exact h,
            fun h => by rw [h2]; exact h, fun h => by rw [h3]; exact h⟩
        · obtain ⟨h1, h2, h3⟩ := LDVEmpty_arrays p hc
          exact ⟨fun h => by rw [h1]; exact h,
            fun h => by rw [h2]; exact h, fun h => by rw [h3]; exact h⟩
        · obtain ⟨h1, h2, h3⟩ := getPlaceFromLDV_arrays p hc
          exact ⟨fun h => by rw [h1]; exact h,
            fun h => by rw [h2]; exact h, fun h => by rw [h3]; exact h⟩
        · obtain ⟨h1, h2, h3⟩ := checkAdded_arrays p hc
          exact ⟨fun h => by rw [h1]; exact h,
            fun h => by rw [h2]; exact h, fun h => by rw [h3]; exact h⟩
        · obtain ⟨h1, h2, h3⟩ := wasAdded_arrays p hc
          exact ⟨fun h => by rw [h1]; exact h,
            fun h => by rw [h2]; exact h, fun h => by rw [h3]; exact h⟩
        · obtain ⟨⟨j, h1⟩, h2, h3⟩ := wasNotAdded_arrays p hc
          refine ⟨fun h => ?_, fun h => by rw [h2]; exact h,
            fun h => by rw [h3]; exact h⟩
          rw [h1]
          exact getB_set_true_mono _ _ _ h
        · obtain ⟨h1, h2, h3⟩ := checkNeighborsLoopTop_arrays p hc
          exact ⟨fun h => by rw [h1]; exact h,
            fun h => by rw [h2]; exact h, fun h => by rw [h3]; exact h⟩
        · obtain ⟨h1, h2, h3⟩ := checkNeighborsLoopIf_arrays p hc
          exact ⟨fun h => by rw [h1]; exact h,
            fun h => by rw [h2]; exact h, fun h => by rw [h3]; exact h⟩
        · obtain ⟨h1, h2, h3⟩ := checkNeighborsLoopIfTrue_arrays p hc
          refine ⟨fun h => by rw [h1]; exact h,
            fun h => by rw [h2]; exact h, fun h => ?_⟩
          rcases h3 with h3 | ⟨j, h3⟩
          · rw [h3]
            exact h
          · rw [h3]
            exact getB_set_true_mono _ _ _ h
        · obtain ⟨h1, h2, h3⟩ := checkNeighborsLoopIfFalse_arrays p hc
          refine ⟨fun h => by rw [h1]; exact h, fun h => ?_, fun h => ?_⟩
          · rcases h2 with h2 | ⟨j, h2⟩
            · rw [h2]
              exact h
            · rw [h2]
              exact getB_set_true_mono _ _ _ h
          · obtain ⟨j, h3⟩ := h3
            rw [h3]
            exact getB_set_true_mono _ _ _ h
        · obtain ⟨h1, h2, h3⟩ := finalizeComponent_arrays p hc
          exact ⟨fun h => by rw [h1]; exact h,
            fun h => by rw [h2]; exact h, fun h => by rw [h3]; exact h⟩
        · obtain ⟨h1, h2, h3⟩ := checkAnyUnadded_arrays p hc
          exact ⟨fun h => by rw [h1]; exact h,
            fun h => by rw [h2]; exact h, fun h => by rw [h3]; exact h⟩
        · obtain ⟨h1, ⟨j, h2⟩, h3⟩ := startNewComponent_arrays p hc
          refine ⟨fun h => by rw [h1]; exact h, fun h => ?_,
            fun h => by rw [h3]; exact h⟩
          rw [h2]
          exact getB_set_true_mono _ _ _ h
        · obtain ⟨h1, h2, h3⟩ := doneToTrue_arrays p hc
          exact ⟨fun h => by rw [h1]; exact h,
            fun h => by rw [h2]; exact h, fun h => by rw [h3]; exact h⟩
        · obtain ⟨h1, h2, h3⟩ := cleanup_arrays p hc
          exact ⟨fun h => by rw [h1]; exact h,
            fun h => by rw [h2]; exact h, fun h => by rw [h3]; exact h⟩

/-- C8 witness: the `"START"` action of the example run produces the
initialized bitmaps, and the subsequent `"wasAdded"` discard preserves the
already-true bit of vertex 0. -/
theorem bitmaps_init_and_monotone_witness :
    (c8Post.addedV = List.replicate 4 false ∧
      c8Post.discoveredV = (List.replicate 4 false).set 0 true ∧
      c8Post.discoveredE = List.replicate 4 false) ∧
    getB c8bPost.addedV 0 = true := by
  constructor
  · exact (bitmaps_init_and_monotone egParams).1 (dijkstraStart 0 2) c8Post
      rfl rfl
  · exact (((bitmaps_init_and_monotone egParams).2
      { c2State with nextAction := "wasAdded" } c8bPost (by decide) rfl
      0).1) (by decide)

/-! ## Actions never read the pacing flag or the delay -/

theorem startCode_scrub {V : Type} [Inhabited V] [Zero V] (p : AVParams V) (s : Sim V)
    (b : Bool) (d : Int) :
    startCode p { s with iterationDone := b, delay := d } =
      (startCode p s).map
        (fun u => { u with iterationDone := true, delay := d }) ∧
    ∀ u, startCode p s = some u → u.iterationDone = true := by
  constructor
  · cases s with
    | mk st dl tr itd na ie ldv aV dV dE nvs nes nvu neu nedd nedr cn cvl cel suv vis ntl nn te sb acd sv ev sc rc =>
      simp only [startCode, loopTopLabel, Option.map]
      all_goals first
        | rfl
        | (split_ifs <;> rfl)
  · intro u hu
    cases s with
    | mk st dl tr itd na ie ldv aV dV dE nvs nes nvu neu nedd nedr cn cvl cel suv vis ntl nn te sb acd sv ev sc rc =>
      simp only [startCode, loopTopLabel, Option.some.injEq] at hu
      first
        | (split_ifs at hu <;> (subst hu; rfl))
        | (subst hu; rfl)

theorem checkAllComponentsDoneCode_scrub {V : Type} [Inhabited V] (p : AVParams V) (s : Sim V)
    (b : Bool) (d : Int) :
    checkAllComponentsDoneCode p { s with iterationDone := b, delay := d } =
      (checkAllComponentsDoneCode p s).map
        (fun u => { u with iterationDone := true, delay := d }) ∧
    ∀ u, checkAllComponentsDoneCode p s = some u → u.iterationDone = true := by
  constructor
  · cases s with
    | mk st dl tr itd na ie ldv aV dV dE nvs nes nvu neu nedd nedr cn cvl cel suv vis ntl nn te sb acd sv ev sc rc =>
      simp only [checkAllComponentsDoneCode, loopTopLabel, Option.map]
      all_goals first
        | rfl
        | (split_ifs <;> rfl)
  · intro u hu
    cases s with
    | mk st dl tr itd na ie ldv aV dV dE nvs nes nvu neu nedd nedr cn cvl cel suv vis ntl nn te sb acd sv ev sc rc =>
      simp only [checkAllComponentsDoneCode, loopTopLabel, Option.some.injEq] at hu
      first
        | (split_ifs at hu <;> (subst hu; rfl))
        | (subst hu; rfl)

theorem checkComponentDoneCode_scrub {V : Type} [Inhabited V] (p : AVParams V) (s : Sim V)
    (b : Bool) (d : Int) :
    checkComponentDoneCode p { s with iterationDone := b, delay := d } =
      (checkComponentDoneCode p s).map
        (fun u => { u with iterationDone := true, delay := d }) ∧
    ∀ u, checkComponentDoneCode p s = some u → u.iterationDone = true := by
  constructor
  · cases s with
    | mk st dl tr itd na ie ldv aV dV dE nvs nes nvu neu nedd nedr cn cvl cel suv vis ntl nn te sb acd sv ev sc rc =>
      simp only [checkComponentDoneCode, loopTopLabel, Option.map]
      all_goals first
        | rfl
        | (split_ifs <;> rfl)
  · intro u hu
    cases s with
    | mk st dl tr itd na ie ldv aV dV dE nvs nes nvu neu nedd nedr cn cvl cel suv vis ntl nn te sb acd sv ev sc rc =>
      simp only [checkComponentDoneCode, loopTopLabel, Option.some.injEq] at hu
      first
        | (split_ifs at hu <;> (subst hu; rfl))
        | (subst hu; rfl)

theorem checkEndAddedCode_scrub {V : Type} [Inhabited V] (p : AVParams V) (s : Sim V)
    (b : Bool) (d : Int) :
    checkEndAddedCode p { s with iterationDone := b, delay := d } =
      (checkEndAddedCode p s).map
        (fun u => { u with iterationDone := true, delay := d }) ∧
    ∀ u, checkEndAddedCode p s = some u → u.iterationDone = true := by
  constructor
  · cases s with
    | mk st dl tr itd na ie ldv aV dV dE nvs nes nvu neu nedd nedr cn cvl cel suv vis ntl nn te sb acd sv ev sc rc =>
      simp only [checkEndAddedCode, loopTopLabel, Option.map]
      all_goals first
        | rfl
        | (split_ifs <;> rfl)
  · intro u hu
    cases s with
    | mk st dl tr itd na ie ldv aV dV dE nvs nes nvu neu nedd nedr cn cvl cel suv vis ntl nn te sb acd sv ev sc rc =>
      simp only [checkEndAddedCode, loopTopLabel, Option.some.injEq] at hu
      first
        | (split_ifs at hu <;> (subst hu; rfl))
        | (subst hu; rfl)

theorem startNewComponentCode_scrub {V : Type} [Inhabited V] [Zero V] (p : AVParams V) (s : Sim V)
    (b : Bool) (d : Int) :
    startNewComponentCode p { s with iterationDone := b, delay := d } =
      (startNewComponentCode p s).map
        (fun u => { u with iterationDone := true, delay := d }) ∧
    ∀ u, startNewComponentCode p s = some u → u.iterationDone = true := by
  constructor
  · cases s with
    | mk st dl tr itd na ie ldv aV dV dE nvs nes nvu neu nedd nedr cn cvl cel suv vis ntl nn te sb acd sv ev sc rc =>
      simp only [startNewComponentCode, loopTopLabel, Option.map]
      all_goals first
        | rfl
        | (split_ifs <;> rfl)
  · intro u hu
    cases s with
    | mk st dl tr itd na ie ldv aV dV dE nvs nes nvu neu nedd nedr cn cvl cel suv vis ntl nn te sb acd sv ev sc rc =>
      simp only [startNewComponentCode, loopTopLabel, Option.some.injEq] at hu
      first
        | (split_ifs at hu <;> (subst hu; rfl))
        | (subst hu; rfl)

theorem cleanupCode_scrub {V : Type} [Inhabited V] (p : AVParams V) (s : Sim V)
    (b : Bool) (d : Int) :
    cleanupCode p { s with iterationDone := b, delay := d } =
      (cleanupCode p s).map
        (fun u => { u with iterationDone := true, delay := d }) ∧
    ∀ u, cleanupCode p s = some u → u.iterationDone = true := by
  constructor
  · cases s with
    | mk st dl tr itd na ie ldv aV dV dE nvs nes nvu neu nedd nedr cn cvl cel suv vis ntl nn te sb acd sv ev sc rc =>
      simp only [cleanupCode, loopTopLabel, Option.map]
      all_goals first
        | rfl
        | (split_ifs <;> rfl)
  · intro u hu
    cases s with
    | mk st dl tr itd na ie ldv aV dV dE nvs nes nvu neu nedd nedr cn cvl cel suv vis ntl nn te sb acd sv ev sc rc =>
      simp only [cleanupCode, loopTopLabel, Option.some.injEq] at hu
      first
        | (split_ifs at hu <;> (subst hu; rfl))
        | (subst hu; rfl)

theorem checkLDVEmptyCode_scrub {V : Type} [Inhabited V] (p : AVParams V) (s : Sim V)
    (b : Bool) (d : Int) :
    checkLDVEmptyCode p { s with iterationDone := b, delay := d } =
      (checkLDVEmptyCode p s).map
        (fun u => { u with iterationDone := b, delay := d }) ∧
    ∀ u, checkLDVEmptyCode p s = some u →
      u.iterationDone = s.iterationDone ∧ u.nextAction ≠ "DONE" := by
  constructor
  · cases s with
    | mk st dl tr itd na ie ldv aV dV dE nvs nes nvu neu nedd nedr cn cvl cel suv vis ntl nn te sb acd sv ev sc rc =>
      simp only [checkLDVEmptyCode, loopTopLabel, Option.map]
      all_goals first
        | rfl
        | (split_ifs <;> rfl)
  · intro u hu
    cases s with
    | mk st dl tr itd na ie ldv aV dV dE nvs nes nvu neu nedd nedr cn cvl cel suv vis ntl nn te sb acd sv ev sc rc =>
      simp only [checkLDVEmptyCode, loopTopLabel, Option.some.injEq] at hu
      first
        | (split_ifs at hu <;> (subst hu; refine ⟨rfl, ?_⟩; simp))
        | (subst hu; refine ⟨rfl, ?_⟩; simp)

theorem LDVEmptyCode_scrub {V : Type} [Inhabited V] (p : AVParams V) (s : Sim V)
    (b : Bool) (d : Int) :
    LDVEmptyCode p { s with iterationDone := b, delay := d } =
      (LDVEmptyCode p s).map
        (fun u => { u with iterationDone := b, delay := d }) ∧
    ∀ u, LDVEmptyCode p s = some u →
      u.iterationDone = s.iterationDone ∧ u.nextAction ≠ "DONE" := by
  constructor
  · cases s with
    | mk st dl tr itd na ie ldv aV dV dE nvs nes nvu neu nedd nedr cn cvl cel suv vis ntl nn te sb acd sv ev sc rc =>
      simp only [LDVEmptyCode, loopTopLabel, Option.map]
      all_goals first
        | rfl
        | (split_ifs <;> rfl)
  · intro u hu
    cases s with
    | mk st dl tr itd na ie ldv aV dV dE nvs nes nvu neu nedd nedr cn cvl cel suv vis ntl nn te sb acd sv ev sc rc =>
      simp only [LDVEmptyCode, loopTopLabel, Option.some.injEq] at hu
      first
        | (split_ifs at hu <;> (subst hu; refine ⟨rfl, ?_⟩; simp))
        | (subst hu; refine ⟨rfl, ?_⟩; simp)

theorem finalizeComponentCode_scrub {V : Type} [Inhabited V] (p : AVParams V) (s : Sim V)
    (b : Bool) (d : Int) :
    finalizeComponentCode p { s with iterationDone := b, delay := d } =
      (finalizeComponentCode p s).map
        (fun u => { u with iterationDone := b, delay := d }) ∧
    ∀ u, finalizeComponentCode p s = some u →
      u.iterationDone = s.iterationDone ∧ u.nextAction ≠ "DONE" := by
  constructor
  · cases s with
    | mk st dl tr itd na ie ldv aV dV dE nvs nes nvu neu nedd nedr cn cvl cel suv vis ntl nn te sb acd sv ev sc rc =>
      simp only [finalizeComponentCode, loopTopLabel, Option.map]
      all_goals first
        | rfl
        | (split_ifs <;> rfl)
  · intro u hu
    cases s with
    | mk st dl tr itd na ie ldv aV dV dE nvs nes nvu neu nedd nedr cn cvl cel suv vis ntl nn te sb acd sv ev sc rc =>
      simp only [finalizeComponentCode, loopTopLabel, Option.some.injEq] at hu
      first
        | (split_ifs at hu <;> (subst hu; refine ⟨rfl, ?_⟩; simp))
        | (subst hu; refine ⟨rfl, ?_⟩; simp)

theorem checkAnyUnaddedCode_scrub {V : Type} [Inhabited V] (p : AVParams V) (s : Sim V)
    (b : Bool) (d : Int) :
    checkAnyUnaddedCode p { s with iterationDone := b, delay := d } =
      (checkAnyUnaddedCode p s).map
        (fun u => { u with iterationDone := b, delay := d }) ∧
    ∀ u, checkAnyUnaddedCode p s = some u →
      u.iterationDone = s.iterationDone ∧ u.nextAction ≠ "DONE" := by
  constructor
  · cases s with
    | mk st dl tr itd na ie ldv aV dV dE nvs nes nvu neu nedd nedr cn cvl cel suv vis ntl nn te sb acd sv ev sc rc =>
      simp only [checkAnyUnaddedCode, loopTopLabel, Option.map]
      all_goals first
        | rfl
        | (split_ifs <;> rfl)
  · intro u hu
    cases s with
    | mk st dl tr itd na ie ldv aV dV dE nvs nes nvu neu nedd nedr cn cvl cel suv vis ntl nn te sb acd sv ev sc rc =>
      simp only [checkAnyUnaddedCode, loopTopLabel, Option.some.injEq] at hu
      first
        | (split_ifs at hu <;> (subst hu; refine ⟨rfl, ?_⟩; simp))
        | (subst hu; refine ⟨rfl, ?_⟩; simp)

theorem doneToTrueCode_scrub {V : Type} [Inhabited V] (p : AVParams V) (s : Sim V)
    (b : Bool) (d : Int) :
    doneToTrueCode p { s with iterationDone := b, delay := d } =
      (doneToTrueCode p s).map
        (fun u => { u with iterationDone := b, delay := d }) ∧
    ∀ u, doneToTrueCode p s = some u →
      u.iterationDone = s.iterationDone ∧ u.nextAction ≠ "DONE" := by
  constructor
  · cases s with
    | mk st dl tr itd na ie ldv aV dV dE nvs nes nvu neu nedd nedr cn cvl cel suv vis ntl nn te sb acd sv ev sc rc =>
      simp only [doneToTrueCode, loopTopLabel, Option.map]
      all_goals first
        | rfl
        | (split_ifs <;> rfl)
  · intro u hu
    cases s with
    | mk st dl tr itd na ie ldv aV dV dE nvs nes nvu neu nedd nedr cn cvl cel suv vis ntl nn te sb acd sv ev sc rc =>
      simp only [doneToTrueCode, loopTopLabel, Option.some.injEq] at hu
      first
        | (split_ifs at hu <;> (subst hu; refine ⟨rfl, ?_⟩; simp))
        | (subst hu; refine ⟨rfl, ?_⟩; simp)

theorem checkAddedCode_scrub {V : Type} [Inhabited V] (p : AVParams V) (s : Sim V)
    (b : Bool) (d : Int) :
    checkAddedCode p { s with iterationDone := b, delay := d } =
      (checkAddedCode p s).map
        (fun u => { u with iterationDone := b, delay := d }) ∧
    ∀ u, checkAddedCode p s = some u →
      u.iterationDone = s.iterationDone ∧ u.nextAction ≠ "DONE" := by
  constructor
  · cases s with
    | mk st dl tr itd na ie ldv aV dV dE nvs nes nvu neu nedd nedr cn cvl cel suv vis ntl nn te sb acd sv ev sc rc =>
      simp only [checkAddedCode, loopTopLabel, Option.map]
      rcases vis with _ | v <;>
        first
          | rfl
          | (split_ifs <;> rfl)
  · intro u hu
    cases s with
    | mk st dl tr itd na ie ldv aV dV dE nvs nes nvu neu nedd nedr cn cvl cel suv vis ntl nn te sb acd sv ev sc rc =>
      simp only [checkAddedCode, loopTopLabel, Option.some.injEq] at hu
      rcases vis with _ | v
      · simp at hu
      · simp only [Option.some.injEq] at hu
        first
          | (split_ifs at hu <;> (subst hu; refine ⟨rfl, ?_⟩; simp))
          | (subst hu; refine ⟨rfl, ?_⟩; simp)

theorem wasAddedCode_scrub {V : Type} [Inhabited V] (p : AVParams V) (s : Sim V)
    (b : Bool) (d : Int) :
    wasAddedCode p { s with iterationDone := b, delay := d } =
      (wasAddedCode p s).map
        (fun u => { u with iterationDone := b, delay := d }) ∧
    ∀ u, wasAddedCode p s = some u →
      u.iterationDone = s.iterationDone ∧ u.nextAction ≠ "DONE" := by
  constructor
  · cases s with
    | mk st dl tr itd na ie ldv aV dV dE nvs nes nvu neu nedd nedr cn cvl cel suv vis ntl nn te sb acd sv ev sc rc =>
      simp only [wasAddedCode, loopTopLabel, Option.map]
      rcases vis with _ | v <;>
        first
          | rfl
          | (split_ifs <;> rfl)
  · intro u hu
    cases s with
    | mk st dl tr itd na ie ldv aV dV dE nvs nes nvu neu nedd nedr cn cvl cel suv vis ntl nn te sb acd sv ev sc rc =>
      simp only [wasAddedCode, loopTopLabel, Option.some.injEq] at hu
      rcases vis with _ | v
      · simp at hu
      · simp only [Option.some.injEq] at hu
        first
          | (split_ifs at hu <;> (subst hu; refine ⟨rfl, ?_⟩; simp))
          | (subst hu; refine ⟨rfl, ?_⟩; simp)

theorem wasNotAddedCode_scrub {V : Type} [Inhabited V] (p : AVParams V) (s : Sim V)
    (b : Bool) (d : Int) :
    wasNotAddedCode p { s with iterationDone := b, delay := d } =
      (wasNotAddedCode p s).map
        (fun u => { u with iterationDone := b, delay := d }) ∧
    ∀ u, wasNotAddedCode p s = some u →
      u.iterationDone = s.iterationDone ∧ u.nextAction ≠ "DONE" := by
  constructor
  · cases s with
    | mk st dl tr itd na ie ldv aV dV dE nvs nes nvu neu nedd nedr cn cvl cel suv vis ntl nn te sb acd sv ev sc rc =>
      simp only [wasNotAddedCode, loopTopLabel, Option.map]
      rcases vis with _ | v
      · rfl
      · dsimp only
        rcases v.connection with _ | c <;> split_ifs <;> rfl
  · intro u hu
    cases s with
    | mk st dl tr itd na ie ldv aV dV dE nvs nes nvu neu nedd nedr cn cvl cel suv vis ntl nn te sb acd sv ev sc rc =>
      simp only [wasNotAddedCode, loopTopLabel] at hu
      rcases vis with _ | v
      · simp at hu
      · simp only [Option.some.injEq] at hu
        rcases hvc : v.connection with _ | c <;>
          rw [hvc] at hu <;>
          (try dsimp only at hu) <;>
          split_ifs at hu <;>
          (subst hu; refine ⟨rfl, ?_⟩; simp)
theorem checkNeighborsLoopTopCode_scrub {V : Type} [Inhabited V] (p : AVParams V) (s : Sim V)
    (b : Bool) (d : Int) :
    checkNeighborsLoopTopCode p { s with iterationDone := b, delay := d } =
      (checkNeighborsLoopTopCode p s).map
        (fun u => { u with iterationDone := b, delay := d }) ∧
    ∀ u, checkNeighborsLoopTopCode p s = some u →
      u.iterationDone = s.iterationDone ∧ u.nextAction ≠ "DONE" := by
  constructor
  · cases s with
    | mk st dl tr itd na ie ldv aV dV dE nvs nes nvu neu nedd nedr cn cvl cel suv vis ntl nn te sb acd sv ev sc rc =>
      simp only [checkNeighborsLoopTopCode, loopTopLabel, Option.map]
      rcases vis with _ | v <;>
        first
          | rfl
          | (split_ifs <;> rfl)
  · intro u hu
    cases s with
    | mk st dl tr itd na ie ldv aV dV dE nvs nes nvu neu nedd nedr cn cvl cel suv vis ntl nn te sb acd sv ev sc rc =>
      simp only [checkNeighborsLoopTopCode, loopTopLabel, Option.some.injEq] at hu
      rcases vis with _ | v
      · simp at hu
      · simp only [Option.some.injEq] at hu
        first
          | (split_ifs at hu <;> (subst hu; refine ⟨rfl, ?_⟩; simp))
          | (subst hu; refine ⟨rfl, ?_⟩; simp)

theorem checkNeighborsLoopIfCode_scrub {V : Type} [Inhabited V] (p : AVParams V) (s : Sim V)
    (b : Bool) (d : Int) :
    checkNeighborsLoopIfCode p { s with iterationDone := b, delay := d } =
      (checkNeighborsLoopIfCode p s).map
        (fun u => { u with iterationDone := b, delay := d }) ∧
    ∀ u, checkNeighborsLoopIfCode p s = some u →
      u.iterationDone = s.iterationDone ∧ u.nextAction ≠ "DONE" := by
  constructor
  · cases s with
    | mk st dl tr itd na ie ldv aV dV dE nvs nes nvu neu nedd nedr cn cvl cel suv vis ntl nn te sb acd sv ev sc rc =>
      simp only [checkNeighborsLoopIfCode, loopTopLabel, Option.map]
      rcases ntl.getLast? with _ | n
      · rfl
      · dsimp only
  · intro u hu
    cases s with
    | mk st dl tr itd na ie ldv aV dV dE nvs nes nvu neu nedd nedr cn cvl cel suv vis ntl nn te sb acd sv ev sc rc =>
      simp only [checkNeighborsLoopIfCode, loopTopLabel] at hu
      rcases hl : ntl.getLast? with _ | n <;> rw [hl] at hu
      · simp at hu
      · simp only [Option.some.injEq] at hu
        split_ifs at hu <;> (subst hu; refine ⟨rfl, ?_⟩; simp)
theorem checkNeighborsLoopIfTrueCode_scrub {V : Type} [Inhabited V] (p : AVParams V) (s : Sim V)
    (b : Bool) (d : Int) :
    checkNeighborsLoopIfTrueCode p { s with iterationDone := b, delay := d } =
      (checkNeighborsLoopIfTrueCode p s).map
        (fun u => { u with iterationDone := b, delay := d }) ∧
    ∀ u, checkNeighborsLoopIfTrueCode p s = some u →
      u.iterationDone = s.iterationDone ∧ u.nextAction ≠ "DONE" := by
  constructor
  · cases s with
    | mk st dl tr itd na ie ldv aV dV dE nvs nes nvu neu nedd nedr cn cvl cel suv vis ntl nn te sb acd sv ev sc rc =>
      simp only [checkNeighborsLoopIfTrueCode, loopTopLabel, Option.map]
      rcases nn with _ | n
      · rfl
      · dsimp only
        split_ifs <;> rfl
  · intro u hu
    cases s with
    | mk st dl tr itd na ie ldv aV dV dE nvs nes nvu neu nedd nedr cn cvl cel suv vis ntl nn te sb acd sv ev sc rc =>
      simp only [checkNeighborsLoopIfTrueCode, loopTopLabel] at hu
      rcases nn with _ | n
      · simp at hu
      · simp only [Option.some.injEq] at hu
        split_ifs at hu <;> (subst hu; refine ⟨rfl, ?_⟩; simp)
theorem checkNeighborsLoopIfFalseCode_scrub {V : Type} [Inhabited V] (p : AVParams V) (s : Sim V)
    (b : Bool) (d : Int) :
    checkNeighborsLoopIfFalseCode p { s with iterationDone := b, delay := d } =
      (checkNeighborsLoopIfFalseCode p s).map
        (fun u => { u with iterationDone := b, delay := d }) ∧
    ∀ u, checkNeighborsLoopIfFalseCode p s = some u →
      u.iterationDone = s.iterationDone ∧ u.nextAction ≠ "DONE" := by
  constructor
  · cases s with
    | mk st dl tr itd na ie ldv aV dV dE nvs nes nvu neu nedd nedr cn cvl cel suv vis ntl nn te sb acd sv ev sc rc =>
      simp only [checkNeighborsLoopIfFalseCode, loopTopLabel, Option.map]
      rcases vis with _ | v <;> rcases nn with _ | n
      · rfl
      · rfl
      · rfl
      · dsimp only
        split_ifs <;> rfl
  · intro u hu
    cases s with
    | mk st dl tr itd na ie ldv aV dV dE nvs nes nvu neu nedd nedr cn cvl cel suv vis ntl nn te sb acd sv ev sc rc =>
      simp only [checkNeighborsLoopIfFalseCode, loopTopLabel] at hu
      rcases vis with _ | v <;> rcases nn with _ | n
      · simp at hu
      · simp at hu
      · simp at hu
      · simp only [Option.some.injEq] at hu
        split_ifs at hu <;> (subst hu; refine ⟨rfl, ?_⟩; simp)
theorem getPlaceFromLDVCode_scrub {V : Type} [Inhabited V] (p : AVParams V) (s : Sim V)
    (b : Bool) (d : Int) :
    getPlaceFromLDVCode p { s with iterationDone := b, delay := d } =
      (getPlaceFromLDVCode p s).map
        (fun u => { u with iterationDone := b, delay := d }) ∧
    ∀ u, getPlaceFromLDVCode p s = some u →
      u.iterationDone = s.iterationDone ∧ u.nextAction ≠ "DONE" := by
  constructor
  · cases s with
    | mk st dl tr itd na ie ldv aV dV dE nvs nes nvu neu nedd nedr cn cvl cel suv vis ntl nn te sb acd sv ev sc rc =>
      simp only [getPlaceFromLDVCode, loopTopLabel, Option.map]
      rcases ldv.remove (p.randSeq rc % max 1 ldv.items.length)
          with ⟨_ | e, ldv2⟩ <;> rfl
  · intro u hu
    cases s with
    | mk st dl tr itd na ie ldv aV dV dE nvs nes nvu neu nedd nedr cn cvl cel suv vis ntl nn te sb acd sv ev sc rc =>
      simp only [getPlaceFromLDVCode, loopTopLabel] at hu
      rcases hr : ldv.remove (p.randSeq rc % max 1 ldv.items.length)
          with ⟨_ | e, ldv2⟩ <;> rw [hr] at hu
      · simp at hu
      · simp only [Option.some.injEq] at hu
        subst hu
        refine ⟨rfl, ?_⟩
        simp

/-- Every table action, on a state differing only in the pacing flag and the
delay, computes the same result up to those two fields; actions that do not
set `iterationDone` (`w = false`) never set `nextAction` to `"DONE"`. -/
theorem code_scrub {V : Type} [Inhabited V] [Zero V] (p : AVParams V)
    (s : Sim V) (b : Bool) (d : Int) (a : ActionEntry V)
    (ha : a ∈ (avActions : List (ActionEntry V))) :
    ∃ w : Bool,
      a.code p { s with iterationDone := b, delay := d } =
        (a.code p s).map
          (fun u => { u with iterationDone := w || b, delay := d }) ∧
      (w = false → ∀ u, a.code p s = some u → u.nextAction ≠ "DONE") := by
  simp only [avActions, List.mem_cons, List.not_mem_nil, or_false] at ha
  rcases ha with rfl | rfl | rfl | rfl | rfl | rfl | rfl | rfl |
    rfl | rfl | rfl | rfl | rfl | rfl | rfl | rfl | rfl | rfl | rfl
  · exact ⟨true, (startCode_scrub p s b d).1, by simp⟩
  · exact ⟨true, (checkAllComponentsDoneCode_scrub p s b d).1, by simp⟩
  · exact ⟨true, (checkComponentDoneCode_scrub p s b d).1, by simp⟩
  · exact ⟨true, (checkEndAddedCode_scrub p s b d).1, by simp⟩
  · exact ⟨false, (checkLDVEmptyCode_scrub p s b d).1,
      fun _ u hc => ((checkLDVEmptyCode_scrub p s b d).2 u hc).2⟩
  · exact ⟨false, (LDVEmptyCode_scrub p s b d).1,
      fun _ u hc => ((LDVEmptyCode_scrub p s b d).2 u hc).2⟩
  · exact ⟨false, (getPlaceFromLDVCode_scrub p s b d).1,
      fun _ u hc => ((getPlaceFromLDVCode_scrub p s b d).2 u hc).2⟩
  · exact ⟨false, (checkAddedCode_scrub p s b d).1,
      fun _ u hc => ((checkAddedCode_scrub p s b d).2 u hc).2⟩
  · exact ⟨false, (wasAddedCode_scrub p s b d).1,
      fun _ u hc => ((wasAddedCode_scrub p s b d).2 u hc).2⟩
  · exact ⟨false, (wasNotAddedCode_scrub p s b d).1,
      fun _ u hc => ((wasNotAddedCode_scrub p s b d).2 u hc).2⟩
  · exact ⟨false, (checkNeighborsLoopTopCode_scrub p s b d).1,
      fun _ u hc => ((checkNeighborsLoopTopCode_scrub p s b d).2 u hc).2⟩
  · exact ⟨false, (checkNeighborsLoopIfCode_scrub p s b d).1,
      fun _ u hc => ((checkNeighborsLoopIfCode_scrub p s b d).2 u hc).2⟩
  · exact ⟨false, (checkNeighborsLoopIfTrueCode_scrub p s b d).1,
      fun _ u hc => ((checkNeighborsLoopIfTrueCode_scrub p s b d).2 u hc).2⟩
  · exact ⟨false, (checkNeighborsLoopIfFalseCode_scrub p s b d).1,
      fun _ u hc => ((checkNeighborsLoopIfFalseCode_scrub p s b d).2 u hc).2⟩
  · exact ⟨false, (finalizeComponentCode_scrub p s b d).1,
      fun _ u hc => ((finalizeComponentCode_scrub p s b d).2 u hc).2⟩
  · exact ⟨false, (checkAnyUnaddedCode_scrub p s b d).1,
      fun _ u hc => ((checkAnyUnaddedCode_scrub p s b d).2 u hc).2⟩
  · exact ⟨true, (startNewComponentCode_scrub p s b d).1, by simp⟩
  · exact ⟨false, (doneToTrueCode_scrub p s b d).1,
      fun _ u hc => ((doneToTrueCode_scrub p s b d).2 u hc).2⟩
  · exact ⟨true, (cleanupCode_scrub p s b d).1, by simp⟩

/-- `oneAction` on a state differing only in the pacing flag and the delay:
same lookup, same action, same successor up to those two fields; the flag in
the successor is the old flag or-ed with the action-specific bit `w`, and
`w = false` (a non-finishing action) implies the successor has not reached
`"DONE"`. -/
theorem oneAction_scrub {V : Type} [Inhabited V] [Zero V] (p : AVParams V)
    (s : Sim V) (b : Bool) (d : Int) :
    ∀ u, oneAction p s = Except.ok u →
      ∃ w : Bool,
        oneAction p { s with iterationDone := b, delay := d } =
          Except.ok { u with iterationDone := w || b, delay := d } ∧
        (w = false → u.nextAction ≠ "DONE") := by
  intro u hu
  unfold oneAction at hu
  rcases hlk : lookupAction s.nextAction (avActions : List (ActionEntry V))
    with _ | a
  · rw [hlk] at hu
    cases hu
  · rw [hlk] at hu
    rcases hc : a.code p s with _ | t
    · simp only [hc] at hu
      cases hu
    · simp only [hc, Except.ok.injEq] at hu
      subst hu
      obtain ⟨w, h1, h2⟩ :=
        code_scrub p s b d a (lookupAction_mem s.nextAction avActions a hlk).1
      rw [hc] at h1
      simp only [Option.map_some'] at h1
      exact ⟨w, oneAction_ok hlk h1, fun hw => h2 hw t hc⟩

/-! ## Completion granularity simulates action stepping -/

theorem iterLoop_step {V : Type} [Inhabited V] [Zero V] {p : AVParams V}
    {x y : Sim V} (n : Nat) (h : oneAction p x = Except.ok y) :
    iterLoop p (n + 1) x =
      if y.iterationDone then Except.ok y else iterLoop p n y := by
  show (match oneAction p x with
        | Except.error e => Except.error e
        | Except.ok s => if s.iterationDone then Except.ok s
                         else iterLoop p n s) =
    if y.iterationDone then Except.ok y else iterLoop p n y
  rw [h]

theorem runA_mono {V : Type} [Inhabited V] [Zero V] (p : AVParams V) :
    ∀ (n N : Nat) (s sf : Sim V), n ≤ N →
      runActions p n s = Except.ok sf → runActions p N s = Except.ok sf := by
  intro n
  induction n with
  | zero =>
    intro N s sf _ h
    unfold runActions at h
    split_ifs at h with hd
    · cases h
      cases N with
      | zero => unfold runActions; rw [if_pos hd]
      | succ m => unfold runActions; rw [if_pos hd]
  | succ m ih =>
    intro N s sf hle h
    unfold runActions at h
    split_ifs at h with hd
    · cases h
      cases N with
      | zero => unfold runActions; rw [if_pos hd]
      | succ k => unfold runActions; rw [if_pos hd]
    · cases N with
      | zero => omega
      | succ k =>
        unfold runActions
        rw [if_neg hd]
        rcases ho : oneAction p s with e | s1
        · rw [ho] at h
          cases h
        · rw [ho] at h
          exact ih k s1 sf (by omega) h

theorem iterLoop_mono {V : Type} [Inhabited V] [Zero V] (p : AVParams V) :
    ∀ (n N : Nat) (s sf : Sim V), n ≤ N →
      iterLoop p n s = Except.ok sf → iterLoop p N s = Except.ok sf := by
  intro n
  induction n with
  | zero =>
    intro N s sf _ h
    unfold iterLoop at h
    cases h
  | succ m ih =>
    intro N s sf hle h
    cases N with
    | zero => omega
    | succ k =>
      unfold iterLoop at h ⊢
      rcases ho : oneAction p s with e | s1
      · rw [ho] at h
        dsimp only at h
        cases h
      · rw [ho] at h
        dsimp only at h ⊢
        split_ifs at h ⊢ with hd
        · exact h
        · exact ih k s1 sf (by omega) h

theorem iterLoop_sim {V : Type} [Inhabited V] [Zero V] (p : AVParams V) :
    ∀ (n : Nat) (s sf : Sim V) (d : Int),
      runActions p n s = Except.ok sf → s.nextAction ≠ "DONE" →
      ∃ (t : Sim V) (k : Nat),
        iterLoop p n { s with iterationDone := false, delay := d } =
          Except.ok { t with iterationDone := true, delay := d } ∧
        k < n ∧ runActions p k t = Except.ok sf := by
  intro n
  induction n with
  | zero =>
    intro s sf d h hne
    unfold runActions at h
    rw [if_neg hne] at h
    cases h
  | succ m ih =>
    intro s sf d h hne
    unfold runActions at h
    rw [if_neg hne] at h
    rcases ho : oneAction p s with e | s1
    · rw [ho] at h
      cases h
    · rw [ho] at h
      obtain ⟨w, hsc, hw⟩ := oneAction_scrub p s false d s1 ho
      cases w with
      | true =>
        refine ⟨s1, m, ?_, Nat.lt_succ_self m, h⟩
        rw [iterLoop_step m hsc]
        rfl
      | false =>
        obtain ⟨t, k, hit, hk, hrun⟩ := ih s1 sf d h (hw rfl)
        refine ⟨t, k, ?_, Nat.lt_succ_of_lt hk, hrun⟩
        rw [iterLoop_step m hsc]
        exact hit

theorem runToCompletion_sim {V : Type} [Inhabited V] [Zero V] (p : AVParams V)
    (N : Nat) :
    ∀ (n : Nat) (s sf : Sim V) (d : Int) (b : Bool), n ≤ N →
      runActions p n s = Except.ok sf →
      ∃ b' : Bool,
        runToCompletion p N n { s with iterationDone := b, delay := d } =
          Except.ok { sf with iterationDone := b', delay := d } := by
  intro n
  induction n with
  | zero =>
    intro s sf d b _ h
    unfold runActions at h
    split_ifs at h with hd
    cases h
    exact ⟨b, by unfold runToCompletion; rw [if_pos hd]⟩
  | succ m ih =>
    intro s sf d b hle h
    by_cases hd : s.nextAction = "DONE"
    · unfold runActions at h
      rw [if_pos hd] at h
      cases h
      exact ⟨b, by unfold runToCompletion; rw [if_pos hd]⟩
    · obtain ⟨t, k, hit, hk, hrun⟩ := iterLoop_sim p (m + 1) s sf d h hd
      have hit2 := iterLoop_mono p (m + 1) N _ _ hle hit
      obtain ⟨b', hfin⟩ := ih t sf d true (by omega)
        (runA_mono p k m t sf (by omega) hrun)
      refine ⟨b', ?_⟩
      unfold runToCompletion
      rw [if_neg hd]
      have hoi : oneIteration p N { s with iterationDone := b, delay := d } =
          Except.ok { t with iterationDone := true, delay := d } := hit2
      rw [hoi]
      exact hfin

/-- C3: for a run whose non-deterministic choices are fixed by the
parameters' random stream, completion granularity — one timed continuation
(`nextStep`) seeing delay `0` and looping `oneIteration` until
`nextAction = "DONE"` — produces the same final state as running one action
at a time until `"DONE"`: the same spanning tree (`treeEdges`), the same
component partition (`componentVList`/`componentEList`/`componentNum`), and
every other algorithm field, the only differences being the `iterationDone`
pacing flag and the stored delay. -/
theorem completion_equals_action_stepping {V : Type} [Inhabited V] [Zero V]
    (p : AVParams V) (n : Nat) (s sf : Sim V)
    (hrun : runActions p n s = Except.ok sf)
    (hst : s.status ≠ HdxState.AV_PAUSED) :
    ∃ sc : Sim V,
      nextStep p n { s with delay := 0 } = Except.ok sc ∧
      Sim.scrub sc = Sim.scrub sf ∧
      sc.treeEdges = sf.treeEdges ∧
      sc.componentVList = sf.componentVList ∧
      sc.componentEList = sf.componentEList ∧
      sc.componentNum = sf.componentNum := by
  obtain ⟨b', hrc⟩ :=
    runToCompletion_sim p n n s sf 0 s.iterationDone (le_refl n) hrun
  refine ⟨{ sf with iterationDone := b', delay := 0 }, ?_, rfl, rfl, rfl,
    rfl, rfl⟩
  have h1 : nextStep p n { s with delay := 0 } =
      runToCompletion p n n { s with delay := 0 } := by
    unfold nextStep
    rw [if_neg
      (show ¬(({ s with delay := 0 } : Sim V).status = HdxState.AV_PAUSED)
        from hst)]
    rw [if_pos (show (({ s with delay := 0 } : Sim V).delay = 0) from rfl)]
  rw [h1]
  exact hrc

/-- C3 witness: on the 4-cycle Dijkstra example, a single delay-`0`
`nextStep` continuation reaches the very state the 200-fuel action-at-a-time
run reaches. -/
theorem completion_equals_action_stepping_witness :
    ∃ sc : Sim Int,
      nextStep egParams 200 { dijkstraStart 0 2 with delay := 0 } =
        Except.ok sc ∧
      Sim.scrub sc = Sim.scrub c3Final ∧
      sc.treeEdges = c3Final.treeEdges ∧
      sc.componentVList = c3Final.componentVList ∧
      sc.componentEList = c3Final.componentEList ∧
      sc.componentNum = c3Final.componentNum :=
  completion_equals_action_stepping egParams 200 (dijkstraStart 0 2) c3Final
    (by rfl) (by decide)

/-! ## Container, bitmap and graph facts for the StopAtEnd analysis -/

theorem HDXLinear.add_mem {α : Type} {l : HDXLinear α} {e x : α}
    (h : x ∈ (l.add e).items) : x = e ∨ x ∈ l.items := by
  unfold HDXLinear.add at h
  dsimp only at h
  split_ifs at h
  · exact ((pqInsert_mem _).mp h).imp id id
  · rcases List.mem_append.mp h with h | h
    · exact Or.inr h
    · exact Or.inl (List.mem_singleton.mp h)

theorem HDXLinear.remove_spec {α : Type} (l : HDXLinear α) (ri : Nat)
    (hne : l.items ≠ []) (hty : l.type ≠ UNKNOWN)
    (hri : ri < l.items.length) :
    ∃ (e : α) (l' : HDXLinear α), l.remove ri = (some e, l') ∧
      e ∈ l.items ∧ l'.items.length + 1 = l.items.length ∧
      (∀ x ∈ l'.items, x ∈ l.items) ∧ l'.type = l.type ∧
      l'.comesBefore = l.comesBefore := by
  obtain ⟨ty, cmp, items, ac, rc⟩ := l
  simp only at hne hri ⊢
  have hpos : 0 < items.length := List.length_pos.mpr hne
  unfold HDXLinear.remove
  cases ty with
  | STACK =>
    rcases hlast : items.getLast? with _ | x
    · rw [List.getLast?_eq_none_iff] at hlast
      exact absurd hlast hne
    · refine ⟨x, _, rfl, mem_of_getLast?_eq_some hlast, ?_, ?_, rfl, rfl⟩
      · simp only [List.length_dropLast]
        omega
      · intro y hy
        exact mem_dropLast_mem hy
  | QUEUE =>
    rcases items with _ | ⟨x, xs⟩
    · exact absurd rfl hne
    · exact ⟨x, _, rfl, List.mem_cons_self x xs, by simp,
        fun y hy => List.mem_cons_of_mem x hy, rfl, rfl⟩
  | PRIORITY_QUEUE =>
    rcases hlast : items.getLast? with _ | x
    · rw [List.getLast?_eq_none_iff] at hlast
      exact absurd hlast hne
    · refine ⟨x, _, rfl, mem_of_getLast?_eq_some hlast, ?_, ?_, rfl, rfl⟩
      · simp only [List.length_dropLast]
        omega
      · intro y hy
        exact mem_dropLast_mem hy
  | RANDOM =>
    rcases hget : items.get? ri with _ | x
    · rw [List.get?_eq_none] at hget
      omega
    · refine ⟨x, _, rfl, List.get?_mem hget, ?_, ?_, rfl, rfl⟩
      · dsimp only
        rw [List.length_eraseIdx, if_pos hri]
        omega
      · intro y hy
        exact List.eraseIdx_subset _ _ hy
  | UNKNOWN =>
    exact absurd rfl hty

theorem count_false_set_true :
    ∀ (l : List Bool) (i : Nat), i < l.length → getB l i = false →
      (l.set i true).count false + 1 = l.count false := by
  intro l
  induction l with
  | nil => intro i h; simp at h
  | cons a as ih =>
    intro i hi hget
    cases i with
    | zero =>
      simp only [getB, List.getD, List.get?, Option.getD] at hget
      subst hget
      simp [List.count_cons]
    | succ j =>
      have hj : j < as.length := by simpa using hi
      have hget' : getB as j = false := by
        simpa [getB, List.getD_cons_succ] using hget
      have := ih j hj hget'
      simp only [List.set]
      simp only [List.count_cons]
      omega

theorem getB_set_true_elim :
    ∀ {l : List Bool} {j i : Nat}, getB (l.set j true) i = true →
      i = j ∨ getB l i = true
  | [], _, _, h => Or.inr h
  | _ :: _, 0, 0, _ => Or.inl rfl
  | _ :: as, 0, i + 1, h => Or.inr h
  | a :: as, _ + 1, 0, h => Or.inr h
  | a :: as, j + 1, i + 1, h =>
    (getB_set_true_elim (l := as) (j := j) (i := i) h).imp
      (fun hh => by omega) id

theorem getB_replicate_false : ∀ (n i : Nat),
    getB (List.replicate n false) i = false
  | 0, _ => rfl
  | _ + 1, 0 => rfl
  | n + 1, i + 1 => getB_replicate_false n i

theorem buildNeighbors_spec {V : Type} [Inhabited V] {g : Graph V} {v : Nat}
    {conn : Option Nat} {n : Neighbor} (h : n ∈ buildNeighbors g v conn) :
    n.via ∈ g.adj.getD v [] ∧ n.toV = g.farVertex n.via v := by
  simp only [buildNeighbors, List.mem_filterMap] at h
  obtain ⟨i, hi, hf⟩ := h
  split_ifs at hf
  cases hf
  exact ⟨hi, rfl⟩

theorem farVertex_lt {V : Type} [Inhabited V] {g : Graph V} (hwf : g.WF)
    {v i : Nat} (hv : v < g.numV) (hi : i ∈ g.adj.getD v []) :
    g.farVertex i v < g.numV := by
  obtain ⟨-, -, h1, h2⟩ := hwf.2 v hv i hi
  unfold Graph.farVertex
  split_ifs <;> assumption

/-! ## Frame facts of the tree-insertion and neighbor steps -/

theorem addToTreeState_fields {V : Type} (s : Sim V) (v : LDVEntry V) :
    (addToTreeState s v).visiting = s.visiting ∧
    (addToTreeState s v).addedV = s.addedV.set v.vIndex true ∧
    (addToTreeState s v).ldv = s.ldv ∧
    (addToTreeState s v).neighborsToLoop = s.neighborsToLoop ∧
    (addToTreeState s v).stoppingCondition = s.stoppingCondition ∧
    (addToTreeState s v).startingVertex = s.startingVertex ∧
    (addToTreeState s v).endingVertex = s.endingVertex ∧
    (addToTreeState s v).nextAction = "checkNeighborsLoopTop" := by
  cases s
  simp only [addToTreeState]
  rcases v.connection with _ | c <;> split_ifs <;> simp

theorem neighborStep_more_fields {V : Type} [Inhabited V] (p : AVParams V)
    (v : LDVEntry V) (n : Neighbor) (s : Sim V) :
    (neighborStep p v n s).startingVertex = s.startingVertex ∧
    (neighborStep p v n s).endingVertex = s.endingVertex ∧
    (neighborStep p v n s).ldv.type = s.ldv.type := by
  cases s
  simp only [neighborStep, getB]
  split_ifs <;> simp [HDXLinear.add_type]

theorem neighborStep_ldv_mem {V : Type} [Inhabited V] (p : AVParams V)
    (v : LDVEntry V) (n : Neighbor) (s : Sim V) :
    ∀ x ∈ (neighborStep p v n s).ldv.items,
      x ∈ s.ldv.items ∨ x.vIndex = n.toV := by
  intro x hx
  cases s with
  | mk st dl tr itd na ie ldv aV dV dE nvs nes nvu neu nedd nedr cn cvl cel suv vis ntl nn te sb acd sv ev sc rc =>
  simp only [neighborStep, getB] at hx
  split_ifs at hx
  · exact Or.inl hx
  · exact Or.inl hx
  · rcases HDXLinear.add_mem hx with rfl | hx
    · exact Or.inr rfl
    · exact Or.inl hx
  · rcases HDXLinear.add_mem hx with rfl | hx
    · exact Or.inr rfl
    · exact Or.inl hx

theorem processNeighbors_addedV {V : Type} [Inhabited V] (p : AVParams V)
    (v : LDVEntry V) :
    ∀ (R : List Neighbor) (s : Sim V),
      (processNeighbors p v R s).addedV = s.addedV
  | [], s => rfl
  | n :: rest, s => by
    show (processNeighbors p v rest (neighborStep p v n s)).addedV = _
    rw [processNeighbors_addedV p v rest, neighborStep_addedV]

theorem processNeighbors_stoppingCondition {V : Type} [Inhabited V]
    (p : AVParams V) (v : LDVEntry V) :
    ∀ (R : List Neighbor) (s : Sim V),
      (processNeighbors p v R s).stoppingCondition = s.stoppingCondition
  | [], s => rfl
  | n :: rest, s => by
    show (processNeighbors p v rest (neighborStep p v n s)).stoppingCondition
      = _
    rw [processNeighbors_stoppingCondition p v rest,
      neighborStep_stoppingCondition]

theorem processNeighbors_startingVertex {V : Type} [Inhabited V]
    (p : AVParams V) (v : LDVEntry V) :
    ∀ (R : List Neighbor) (s : Sim V),
      (processNeighbors p v R s).startingVertex = s.startingVertex
  | [], s => rfl
  | n :: rest, s => by
    show (processNeighbors p v rest (neighborStep p v n s)).startingVertex = _
    rw [processNeighbors_startingVertex p v rest,
      (neighborStep_more_fields p v n s).1]

theorem processNeighbors_endingVertex {V : Type} [Inhabited V]
    (p : AVParams V) (v : LDVEntry V) :
    ∀ (R : List Neighbor) (s : Sim V),
      (processNeighbors p v R s).endingVertex = s.endingVertex
  | [], s => rfl
  | n :: rest, s => by
    show (processNeighbors p v rest (neighborStep p v n s)).endingVertex = _
    rw [processNeighbors_endingVertex p v rest,
      (neighborStep_more_fields p v n s).2.1]

theorem processNeighbors_ldv_type {V : Type} [Inhabited V]
    (p : AVParams V) (v : LDVEntry V) :
    ∀ (R : List Neighbor) (s : Sim V),
      (processNeighbors p v R s).ldv.type = s.ldv.type
  | [], s => rfl
  | n :: rest, s => by
    show (processNeighbors p v rest (neighborStep p v n s)).ldv.type = _
    rw [processNeighbors_ldv_type p v rest,
      (neighborStep_more_fields p v n s).2.2]

theorem processNeighbors_ldv_mem {V : Type} [Inhabited V]
    (p : AVParams V) (v : LDVEntry V) :
    ∀ (R : List Neighbor) (s : Sim V),
      ∀ x ∈ (processNeighbors p v R s).ldv.items,
        x ∈ s.ldv.items ∨ ∃ n ∈ R, x.vIndex = n.toV
  | [], s, x, hx => Or.inl hx
  | n :: rest, s, x, hx => by
    have hx' : x ∈ (processNeighbors p v rest (neighborStep p v n s)).ldv.items
      := hx
    rcases processNeighbors_ldv_mem p v rest (neighborStep p v n s) x hx' with
      h | ⟨m, hm, hv⟩
    · rcases neighborStep_ldv_mem p v n s x h with h | h
      · exact Or.inl h
      · exact Or.inr ⟨n, List.mem_cons_self n rest, h⟩
    · exact Or.inr ⟨m, List.mem_cons_of_mem n hm, hv⟩

/-! ## From exact stepping to the sentinel-checked runner -/

theorem runActions_step {V : Type} [Inhabited V] [Zero V] {p : AVParams V}
    {s s' sf : Sim V} {n : Nat} (hnd : s.nextAction ≠ "DONE")
    (ho : oneAction p s = Except.ok s')
    (h : runActions p n s' = Except.ok sf) :
    runActions p (n + 1) s = Except.ok sf := by
  unfold runActions
  rw [if_neg hnd, ho]
  exact h

theorem oneAction_not_done {V : Type} [Inhabited V] [Zero V] {p : AVParams V}
    {s u : Sim V} (h : oneAction p s = Except.ok u) :
    s.nextAction ≠ "DONE" := by
  intro hd
  unfold oneAction at h
  rw [hd] at h
  rw [show lookupAction "DONE" (avActions : List (ActionEntry V)) = none
    from rfl] at h
  dsimp only at h
  cases h

theorem stepsN_runActions {V : Type} [Inhabited V] [Zero V] (p : AVParams V) :
    ∀ (k : Nat) (s t : Sim V), stepsN p k s = Except.ok t →
      ∀ (n : Nat) (sf : Sim V), runActions p n t = Except.ok sf →
        runActions p (k + n) s = Except.ok sf := by
  intro k
  induction k with
  | zero =>
    intro s t h n sf hr
    unfold stepsN at h
    cases h
    rw [Nat.zero_add]
    exact hr
  | succ m ih =>
    intro s t h n sf hr
    unfold stepsN at h
    rcases ho : oneAction p s with e | s1
    · rw [ho] at h
      dsimp only at h
      cases h
    · rw [ho] at h
      dsimp only at h
      rw [show m + 1 + n = m + n + 1 by omega]
      exact runActions_step (oneAction_not_done ho) ho (ih s1 t h n sf hr)

/-! ## The StopAtEnd search with an unreachable end vertex -/

theorem start_run_stopAtEnd {V : Type} [Inhabited V] [Zero V] (p : AVParams V)
    (ty : HDXLinearType) (cmp : LDVEntry V → LDVEntry V → Bool)
    (startV endV : Nat) :
    oneAction p (startSim ty cmp "StopAtEnd" startV endV) =
      Except.ok (postStartState p ty cmp startV endV) := by
  apply oneAction_ok (e := ⟨"START", startCode⟩)
  · exact lookup_START
  · simp only [startCode, startSim, postStartState]
    simp

theorem loopTopLabel_stopAtEnd : loopTopLabel "StopAtEnd" = "checkEndAdded" :=
  rfl

theorem checkEndAdded_run_continue {V : Type} [Inhabited V] [Zero V]
    (p : AVParams V) (s : Sim V) (hl : s.nextAction = "checkEndAdded")
    (hend : getB s.addedV s.endingVertex = false) :
    oneAction p s =
      Except.ok { s with nextAction := "checkLDVEmpty",
                         iterationDone := true } := by
  rw [checkEndAdded_run p s hl, hend]
  rfl

theorem checkLDVEmpty_run_empty {V : Type} [Inhabited V] [Zero V]
    (p : AVParams V) (s : Sim V) (hl : s.nextAction = "checkLDVEmpty")
    (he : s.ldv.isEmpty = true) :
    oneAction p s = Except.ok { s with nextAction := "LDVEmpty" } := by
  rw [checkLDVEmpty_run p s hl, he]
  rfl

theorem checkLDVEmpty_run_nonempty {V : Type} [Inhabited V] [Zero V]
    (p : AVParams V) (s : Sim V) (hl : s.nextAction = "checkLDVEmpty")
    (he : s.ldv.isEmpty = false) :
    oneAction p s = Except.ok { s with nextAction := "getPlaceFromLDV" } := by
  rw [checkLDVEmpty_run p s hl, he]
  rfl

theorem checkAdded_run_true {V : Type} [Inhabited V] [Zero V]
    (p : AVParams V) (s : Sim V) (v : LDVEntry V)
    (hl : s.nextAction = "checkAdded") (hv : s.visiting = some v)
    (h : getB s.addedV v.vIndex = true) :
    oneAction p s = Except.ok { s with nextAction := "wasAdded" } := by
  rw [checkAdded_run p s v hl hv, h]
  rfl

theorem checkAdded_run_false {V : Type} [Inhabited V] [Zero V]
    (p : AVParams V) (s : Sim V) (v : LDVEntry V)
    (hl : s.nextAction = "checkAdded") (hv : s.visiting = some v)
    (h : getB s.addedV v.vIndex = false) :
    oneAction p s = Except.ok { s with nextAction := "wasNotAdded" } := by
  rw [checkAdded_run p s v hl hv, h]
  rfl

theorem wasAdded_run_stopAtEnd {V : Type} [Inhabited V] [Zero V]
    (p : AVParams V) (s : Sim V) (v : LDVEntry V)
    (hl : s.nextAction = "wasAdded") (hv : s.visiting = some v)
    (hsc : s.stoppingCondition = "StopAtEnd") :
    oneAction p s =
      Except.ok { s with
                    numEDiscardedOnRemoval := s.numEDiscardedOnRemoval + 1,
                    nextAction := "checkEndAdded" } := by
  rw [wasAdded_run p s v hl hv, hsc]
  rfl

theorem checkNeighborsLoopTop_run_none {V : Type} [Inhabited V] [Zero V]
    (p : AVParams V) (s : Sim V) (v : LDVEntry V)
    (hl : s.nextAction = "checkNeighborsLoopTop") (hv : s.visiting = some v)
    (hntl : s.neighborsToLoop = [])
    (hnb : buildNeighbors p.graph v.vIndex v.connection = [])
    (hsc : s.stoppingCondition = "StopAtEnd") :
    oneAction p s =
      Except.ok { s with neighborsToLoop := ([] : List Neighbor),
                         nextAction := "checkEndAdded" } := by
  rw [checkNeighborsLoopTop_run p s v hl hv, hntl, hnb, hsc]
  rfl

theorem checkNeighborsLoopTop_run_some {V : Type} [Inhabited V] [Zero V]
    (p : AVParams V) (s : Sim V) (v : LDVEntry V)
    (hl : s.nextAction = "checkNeighborsLoopTop") (hv : s.visiting = some v)
    (hntl : s.neighborsToLoop = [])
    (hnb : buildNeighbors p.graph v.vIndex v.connection ≠ []) :
    oneAction p s =
      Except.ok { s with
                    neighborsToLoop :=
                      buildNeighbors p.graph v.vIndex v.connection,
                    nextAction := "checkNeighborsLoopIf" } := by
  rw [checkNeighborsLoopTop_run p s v hl hv, hntl]
  simp only [List.nil_append]
  rw [if_pos (List.length_pos.mpr hnb)]

theorem neighborLoop_run_stopAtEnd {V : Type} [Inhabited V] [Zero V]
    (p : AVParams V) (v : LDVEntry V) (R : List Neighbor) (s : Sim V)
    (hR : R ≠ []) (hl : s.nextAction = "checkNeighborsLoopIf")
    (hv : s.visiting = some v) (hnl : s.neighborsToLoop = R.reverse)
    (hsc : s.stoppingCondition = "StopAtEnd") :
    stepsN p (2 * R.length) s =
      Except.ok { processNeighbors p v R s with
                    neighborsToLoop := ([] : List Neighbor),
                    nextNeighbor := R.getLast?,
                    nextAction := "checkEndAdded" } := by
  rw [neighborLoop_run p v R s hR hl hv hnl, hsc]
  rfl

theorem searchFailed_loop {V : Type} [Inhabited V] [Zero V] (p : AVParams V)
    (hwf : p.graph.WF) :
    ∀ (c ℓ : Nat) (s : Sim V), s.addedV.count false = c →
      s.ldv.items.length = ℓ →
      s.nextAction = "checkEndAdded" → SearchInv p s →
      ∃ (n : Nat) (sf : Sim V), runActions p n s = Except.ok sf ∧
        sf.nextAction = "DONE" ∧ sf.stoppedBecause = "SearchFailed" ∧
        sf.ldv.items = [] := by
  intro c
  induction c using Nat.strong_induction_on with
  | _ c ihc =>
  intro ℓ
  induction ℓ using Nat.strong_induction_on with
  | _ ℓ ihl =>
  intro s hc hl hna hinv
  obtain ⟨hsc, hty, hlen, hntl, hent, haddreach, hnr⟩ := hinv
  have hend : getB s.addedV s.endingVertex = false := by
    cases hE : getB s.addedV s.endingVertex
    · rfl
    · exact absurd (haddreach _ hE) hnr
  have h1 := checkEndAdded_run_continue p s hna hend
  have hnd0 : s.nextAction ≠ "DONE" := by rw [hna]; simp
  by_cases hempty : s.ldv.isEmpty = true
  · -- the container is empty: LDVEmpty then cleanup, SearchFailed
    have hitems : s.ldv.items = [] := by
      have : s.ldv.items.length = 0 := by
        simpa [HDXLinear.isEmpty] using hempty
      exact List.length_eq_zero.mp this
    have h2 : oneAction p
        ({ s with nextAction := "checkLDVEmpty", iterationDone := true } :
          Sim V) =
        Except.ok { s with nextAction := "LDVEmpty",
                           iterationDone := true } :=
      checkLDVEmpty_run_empty p _ rfl hempty
    have h3 : oneAction p
        ({ s with nextAction := "LDVEmpty", iterationDone := true } : Sim V) =
        Except.ok { s with stoppedBecause := "SearchFailed",
                           nextAction := "cleanup",
                           iterationDone := true } :=
      LDVEmpty_run p _ rfl
    have h4 : oneAction p
        ({ s with stoppedBecause := "SearchFailed", nextAction := "cleanup",
                  iterationDone := true } : Sim V) =
        Except.ok { s with stoppedBecause := "SearchFailed",
                           nextAction := "DONE",
                           iterationDone := true } :=
      cleanup_run p _ rfl
    have hfin : runActions p 0
        ({ s with stoppedBecause := "SearchFailed", nextAction := "DONE",
                  iterationDone := true } : Sim V) =
        Except.ok { s with stoppedBecause := "SearchFailed",
                           nextAction := "DONE",
                           iterationDone := true } := by
      unfold runActions
      rw [if_pos rfl]
    refine ⟨4, { s with stoppedBecause := "SearchFailed",
                        nextAction := "DONE", iterationDone := true },
      ?_, rfl, rfl, hitems⟩
    exact runActions_step hnd0 h1 (runActions_step (by simp) h2
      (runActions_step (by simp) h3 (runActions_step (by simp) h4 hfin)))
  · -- the container is nonempty: pull a place and process it
    have hne : s.ldv.items ≠ [] := by
      intro h0
      exact hempty (by simp [HDXLinear.isEmpty, h0])
    have hpos : 0 < s.ldv.items.length := List.length_pos.mpr hne
    have hemptyF : s.ldv.isEmpty = false := Bool.eq_false_iff.mpr hempty
    have h2 : oneAction p
        ({ s with nextAction := "checkLDVEmpty", iterationDone := true } :
          Sim V) =
        Except.ok { s with nextAction := "getPlaceFromLDV",
                           iterationDone := true } :=
      checkLDVEmpty_run_nonempty p _ rfl hemptyF
    have hri : p.randSeq s.randCount % max 1 s.ldv.items.length <
        s.ldv.items.length := by
      rw [Nat.max_eq_right hpos]
      exact Nat.mod_lt _ hpos
    obtain ⟨e, ldv', hrem, hemem, hlen', hsub, htype', -⟩ :=
      HDXLinear.remove_spec s.ldv
        (p.randSeq s.randCount % max 1 s.ldv.items.length) hne hty hri
    have he_reach : p.graph.Reach s.startingVertex e.vIndex :=
      (hent e hemem).1
    have he_lt : e.vIndex < p.graph.numV := (hent e hemem).2
    have h3 : oneAction p
        ({ s with nextAction := "getPlaceFromLDV", iterationDone := true } :
          Sim V) =
        Except.ok { s with
                      ldv := ldv',
                      visiting := some e,
                      randCount := s.randCount + 1,
                      nextAction := "checkAdded",
                      iterationDone := true } :=
      getPlaceFromLDV_run p _ e ldv' rfl hrem
    by_cases hadd : getB s.addedV e.vIndex = true
    · -- the pulled place is already in the tree: discard and loop
      have h4 : oneAction p
          ({ s with
               ldv := ldv',
               visiting := some e,
               randCount := s.randCount + 1,
               nextAction := "checkAdded",
               iterationDone := true } : Sim V) =
          Except.ok { s with
                        ldv := ldv',
                        visiting := some e,
                        randCount := s.randCount + 1,
                        nextAction := "wasAdded",
                        iterationDone := true } :=
        checkAdded_run_true p _ e rfl rfl hadd
      have h5 : oneAction p
          ({ s with
               ldv := ldv',
               visiting := some e,
               randCount := s.randCount + 1,
               nextAction := "wasAdded",
               iterationDone := true } : Sim V) =
          Except.ok { s with
                        ldv := ldv',
                        visiting := some e,
                        randCount := s.randCount + 1,
                        numEDiscardedOnRemoval :=
                          s.numEDiscardedOnRemoval + 1,
                        nextAction := "checkEndAdded",
                        iterationDone := true } :=
        wasAdded_run_stopAtEnd p _ e rfl rfl hsc
      have hrec := ihl ldv'.items.length (by omega)
        ({ s with
             ldv := ldv',
             visiting := some e,
             randCount := s.randCount + 1,
             numEDiscardedOnRemoval := s.numEDiscardedOnRemoval + 1,
             nextAction := "checkEndAdded",
             iterationDone := true } : Sim V)
        hc rfl rfl
        ⟨hsc, by simp only [htype']; exact hty, hlen, hntl,
          fun x hx => hent x (hsub x hx), haddreach, hnr⟩
      obtain ⟨n, sf, hrun, hp1, hp2, hp3⟩ := hrec
      refine ⟨n + 1 + 1 + 1 + 1 + 1, sf, ?_, hp1, hp2, hp3⟩
      exact runActions_step hnd0 h1 (runActions_step (by simp) h2
        (runActions_step (by simp) h3 (runActions_step (by simp) h4
          (runActions_step (by simp) h5 hrun))))
    · -- a new place: add it to the tree and walk its neighbor records
      have hadd' : getB s.addedV e.vIndex = false := Bool.eq_false_iff.mpr hadd
      have h4 : oneAction p
          ({ s with
               ldv := ldv',
               visiting := some e,
               randCount := s.randCount + 1,
               nextAction := "checkAdded",
               iterationDone := true } : Sim V) =
          Except.ok { s with
                        ldv := ldv',
                        visiting := some e,
                        randCount := s.randCount + 1,
                        nextAction := "wasNotAdded",
                        iterationDone := true } :=
        checkAdded_run_false p _ e rfl rfl hadd'
      have h5 := wasNotAdded_run p
        ({ s with
             ldv := ldv',
             visiting := some e,
             randCount := s.randCount + 1,
             nextAction := "wasNotAdded",
             iterationDone := true } : Sim V)
        e rfl rfl
      obtain ⟨hf_vis, hf_added, hf_ldv, hf_ntl, hf_sc, hf_sv, hf_ev, hf_na⟩ :=
        addToTreeState_fields
          ({ s with
               ldv := ldv',
               visiting := some e,
               randCount := s.randCount + 1,
               nextAction := "wasNotAdded",
               iterationDone := true } : Sim V) e
      have hcount : (s.addedV.set e.vIndex true).count false + 1 = c := by
        rw [count_false_set_true s.addedV e.vIndex (by rw [hlen]; exact he_lt)
          hadd']
        exact hc
      have haddinv : ∀ i,
          getB (s.addedV.set e.vIndex true) i = true →
            p.graph.Reach s.startingVertex i := by
        intro i hi
        rcases getB_set_true_elim hi with rfl | hi
        · exact he_reach
        · exact haddreach i hi
      by_cases hnb : buildNeighbors p.graph e.vIndex e.connection = []
      · -- no pending neighbor records: straight back to the loop top
        have h6 := checkNeighborsLoopTop_run_none p
          (addToTreeState
            ({ s with
                 ldv := ldv',
                 visiting := some e,
                 randCount := s.randCount + 1,
                 nextAction := "wasNotAdded",
                 iterationDone := true } : Sim V) e) e
          hf_na hf_vis (hf_ntl.trans hntl) hnb (hf_sc.trans hsc)
        have hrec := ihc ((s.addedV.set e.vIndex true).count false)
          (by omega) ldv'.items.length
          ({ addToTreeState
              ({ s with
                   ldv := ldv',
                   visiting := some e,
                   randCount := s.randCount + 1,
                   nextAction := "wasNotAdded",
                   iterationDone := true } : Sim V) e with
             neighborsToLoop := ([] : List Neighbor),
             nextAction := "checkEndAdded" } : Sim V)
          (by simp only [hf_added])
          (by simp only [hf_ldv])
          rfl
          ⟨by simp only [hf_sc]; exact hsc,
           by simp only [hf_ldv, htype']; exact hty,
           by simp only [hf_added, List.length_set]; exact hlen,
           rfl,
           by simp only [hf_ldv, hf_sv]; exact fun x hx => hent x (hsub x hx),
           by simp only [hf_added, hf_sv]; exact haddinv,
           by simp only [hf_sv, hf_ev]; exact hnr⟩
        obtain ⟨n, sf, hrun, hp1, hp2, hp3⟩ := hrec
        refine ⟨n + 1 + 1 + 1 + 1 + 1 + 1, sf, ?_, hp1, hp2, hp3⟩
        exact runActions_step hnd0 h1 (runActions_step (by simp) h2
          (runActions_step (by simp) h3 (runActions_step (by simp) h4
            (runActions_step (by simp) h5 (runActions_step
              (by rw [hf_na]; simp) h6 hrun)))))
      · -- walk the pending neighbor records, then back to the loop top
        have h6 := checkNeighborsLoopTop_run_some p
          (addToTreeState
            ({ s with
                 ldv := ldv',
                 visiting := some e,
                 randCount := s.randCount + 1,
                 nextAction := "wasNotAdded",
                 iterationDone := true } : Sim V) e) e
          hf_na hf_vis (hf_ntl.trans hntl) hnb
        have hR : (buildNeighbors p.graph e.vIndex e.connection).reverse ≠ []
          := by simpa using hnb
        have hNL := neighborLoop_run_stopAtEnd p e
          ((buildNeighbors p.graph e.vIndex e.connection).reverse)
          ({ addToTreeState
              ({ s with
                   ldv := ldv',
                   visiting := some e,
                   randCount := s.randCount + 1,
                   nextAction := "wasNotAdded",
                   iterationDone := true } : Sim V) e with
             neighborsToLoop := buildNeighbors p.graph e.vIndex e.connection,
             nextAction := "checkNeighborsLoopIf" } : Sim V)
          hR rfl hf_vis (List.reverse_reverse _).symm (hf_sc.trans hsc)
        have hrec := ihc ((s.addedV.set e.vIndex true).count false)
          (by omega)
          ((processNeighbors p e
            ((buildNeighbors p.graph e.vIndex e.connection).reverse)
            ({ addToTreeState
                ({ s with
                     ldv := ldv',
                     visiting := some e,
                     randCount := s.randCount + 1,
                     nextAction := "wasNotAdded",
                     iterationDone := true } : Sim V) e with
               neighborsToLoop :=
                 buildNeighbors p.graph e.vIndex e.connection,
               nextAction :=
                 "checkNeighborsLoopIf" } : Sim V)).ldv.items.length)
          ({ processNeighbors p e
              ((buildNeighbors p.graph e.vIndex e.connection).reverse)
              ({ addToTreeState
                  ({ s with
                       ldv := ldv',
                       visiting := some e,
                       randCount := s.randCount + 1,
                       nextAction := "wasNotAdded",
                       iterationDone := true } : Sim V) e with
                 neighborsToLoop :=
                   buildNeighbors p.graph e.vIndex e.connection,
                 nextAction := "checkNeighborsLoopIf" } : Sim V) with
             neighborsToLoop := ([] : List Neighbor),
             nextNeighbor :=
               ((buildNeighbors p.graph e.vIndex e.connection).reverse).getLast?,
             nextAction := "checkEndAdded" } : Sim V)
          (by simp only [processNeighbors_addedV, hf_added])
          rfl rfl
          ⟨by simp only [processNeighbors_stoppingCondition, hf_sc]; exact hsc,
           by simp only [processNeighbors_ldv_type, hf_ldv, htype']; exact hty,
           by simp only [processNeighbors_addedV, hf_added, List.length_set]
              exact hlen,
           rfl,
           ?entries,
           by simp only [processNeighbors_addedV,
                processNeighbors_startingVertex, hf_added, hf_sv]
              exact haddinv,
           by simp only [processNeighbors_startingVertex,
                processNeighbors_endingVertex, hf_sv, hf_ev]
              exact hnr⟩
        case entries =>
          intro x hx
          simp only [processNeighbors_startingVertex, hf_sv]
          simp only at hx
          rcases processNeighbors_ldv_mem p e _ _ x hx with hx' | ⟨nb, hnbR, hxv⟩
          · simp only [hf_ldv] at hx'
            exact hent x (hsub x hx')
          · have hnbmem : nb ∈ buildNeighbors p.graph e.vIndex e.connection :=
              List.mem_reverse.mp hnbR
            obtain ⟨hvia, hfar⟩ := buildNeighbors_spec hnbmem
            have hadj : p.graph.Adj e.vIndex nb.toV := ⟨nb.via, hvia, hfar.symm⟩
            rw [hxv]
            exact ⟨Relation.ReflTransGen.tail he_reach hadj,
              hfar ▸ farVertex_lt hwf he_lt hvia⟩
        obtain ⟨n, sf, hrun, hp1, hp2, hp3⟩ := hrec
        have hbridge := stepsN_runActions p
          (2 * (buildNeighbors p.graph e.vIndex e.connection).reverse.length)
          _ _ hNL n sf hrun
        refine ⟨2 *
          (buildNeighbors p.graph e.vIndex e.connection).reverse.length
          + n + 1 + 1 + 1 + 1 + 1 + 1, sf, ?_, hp1, hp2, hp3⟩
        exact runActions_step hnd0 h1 (runActions_step (by simp) h2
          (runActions_step (by simp) h3 (runActions_step (by simp) h4
            (runActions_step (by simp) h5 (runActions_step
              (by rw [hf_na]; simp) h6 hbridge)))))

/-- C4: every `StopAtEnd` run started (via `startPausePressed`) on a
well-formed graph whose end vertex is unreachable from the (in-range) start
vertex terminates: it reaches the `"DONE"` sentinel with outcome
`SearchFailed`, and the discovery container is empty at termination.  The
container discipline and comparator are arbitrary (any working discipline),
as are the algorithm's value rule and the stream of random draws. -/
theorem stopAtEnd_no_path_search_failed {V : Type} [Inhabited V] [Zero V]
    (p : AVParams V) (ty : HDXLinearType)
    (cmp : LDVEntry V → LDVEntry V → Bool) (startV endV : Nat)
    (hwf : p.graph.WF) (hty : ty ≠ UNKNOWN) (hstart : startV < p.graph.numV)
    (hnr : ¬ p.graph.Reach startV endV) :
    ∃ (n : Nat) (sf : Sim V),
      runActions p n (startSim ty cmp "StopAtEnd" startV endV) =
        Except.ok sf ∧
      sf.nextAction = "DONE" ∧ sf.stoppedBecause = "SearchFailed" ∧
      sf.ldv.items = [] := by
  have h0 := start_run_stopAtEnd p ty cmp startV endV
  have hitems : (postStartState p ty cmp startV endV).ldv.items =
      [mkLDVEntry p.graph startV 0 none] := by
    show ((HDXLinear.new ty cmp).add (mkLDVEntry p.graph startV 0 none)).items
      = _
    simp [HDXLinear.add, HDXLinear.new]
  have hinv : SearchInv p (postStartState p ty cmp startV endV) := by
    refine ⟨rfl, ?_, ?_, rfl, ?_, ?_, ?_⟩
    · show ((HDXLinear.new ty cmp).add (mkLDVEntry p.graph startV 0 none)).type
        ≠ UNKNOWN
      rw [HDXLinear.add_type]
      exact hty
    · show (List.replicate p.graph.numV false).length = p.graph.numV
      simp
    · intro x hx
      rw [hitems] at hx
      rcases List.mem_singleton.mp hx with rfl
      exact ⟨Relation.ReflTransGen.refl, hstart⟩
    · intro i hi
      have h2 : getB (postStartState p ty cmp startV endV).addedV i = false :=
        getB_replicate_false _ _
      cases h2.symm.trans hi
    · exact hnr
  obtain ⟨n, sf, hrun, hp1, hp2, hp3⟩ := searchFailed_loop p hwf
    ((postStartState p ty cmp startV endV).addedV.count false)
    ((postStartState p ty cmp startV endV).ldv.items.length)
    (postStartState p ty cmp startV endV) rfl rfl rfl hinv
  exact ⟨n + 1, sf,
    runActions_step (by simp [startSim]) h0 hrun, hp1, hp2, hp3⟩

/-- Only vertices 0 and 1 are reachable from vertex 0 in the two-component
example graph. -/
theorem disconGraph_reach_bounded :
    ∀ w, disconGraph.Reach 0 w → w = 0 ∨ w = 1 := by
  intro w h
  induction h with
  | refl => exact Or.inl rfl
  | @tail b c hab hbc ih =>
    rcases ih with rfl | rfl
    · obtain ⟨i, hi, hf⟩ := hbc
      simp only [disconGraph, List.getD] at hi
      rcases List.mem_singleton.mp hi with rfl
      rw [show disconGraph.farVertex 0 0 = 1 from rfl] at hf
      exact Or.inr hf.symm
    · obtain ⟨i, hi, hf⟩ := hbc
      simp only [disconGraph, List.getD] at hi
      rcases List.mem_singleton.mp hi with rfl
      rw [show disconGraph.farVertex 0 1 = 0 from rfl] at hf
      exact Or.inl hf.symm

/-- No path from vertex 0 to vertex 2 in the two-component example graph. -/
theorem disconGraph_no_reach : ¬ disconGraph.Reach 0 2 := by
  intro h
  rcases disconGraph_reach_bounded 2 h with h2 | h2 <;> simp at h2

/-- C4 witness: a Dijkstra `StopAtEnd` run from vertex 0 to vertex 2 on the
two-component graph terminates in `SearchFailed` with an empty container. -/
theorem stopAtEnd_no_path_search_failed_witness :
    ∃ (n : Nat) (sf : Sim Int),
      runActions (dijkstraParams disconGraph (fun _ => 0)) n
        (startSim PRIORITY_QUEUE dijkstraComparator "StopAtEnd" 0 2) =
        Except.ok sf ∧
      sf.nextAction = "DONE" ∧ sf.stoppedBecause = "SearchFailed" ∧
      sf.ldv.items = [] :=
  stopAtEnd_no_path_search_failed (dijkstraParams disconGraph (fun _ => 0))
    PRIORITY_QUEUE dijkstraComparator 0 2 (by unfold Graph.WF; decide)
    (by decide) (by decide) disconGraph_no_reach
